import Mathlib

/-!
Verification development for the collection-visibility synchronization and
object-base cache engine of `source/blender/blenkernel/intern/layer.c`.

The shallow embedding below translates the data model and the operations the
claims are about:

* `SCol` embeds the externally owned `Collection` tree reachable from a scene's
  master collection.  A collection's pointer identity is embedded as the `cid`
  field; one collection linked under several parents appears as several tree
  nodes carrying the same `cid` (the sync algorithm only ever observes a
  collection through `CollectionChild` links, so this unfolding is exactly what
  the C traversal sees).
* `LC` embeds `LayerCollection`.  Allocation identity of the C structs is
  embedded as a `tag` drawn from a per-view counter; `collection` is the weak
  back-reference (`None` models a pointer cleared by ID remap).
* `Base` embeds `Base`, again with a `tag` for allocation identity.
* The `object_bases_hash` ghash is embedded through its maintained invariant:
  during a sync its key set is exactly the set of objects of the old base list
  plus the new base list, and it maps each object to the unique `Base` carrying
  it, so `BLI_ghash_lookup` is embedded as a first search of the new list
  followed by a search of the old list (`BKE_layer_collection_sync` creates the
  hash from the old list when absent, and every insertion/removal keeps it in
  step with the two lists).
* `viewFirst` embeds the value of `view_layer->layer_collections.first` at each
  instant: the top-level recursion level of `layer_collection_sync` operates on
  that very list (`isTop = true`), so it refreshes `viewFirst` at each point at
  which the C code relinks the view's root list; nested levels operate on lists
  that have already been detached from the view and leave `viewFirst` alone.
-/

set_option maxHeartbeats 1600000

namespace LayerSync

/-! ### Flag bit constants

The numeric values live in `DNA_group_types.h` / `DNA_layer_types.h` /
`DNA_ID.h`, which are not part of the sampled sources; the code only relies on
the flags being distinct bits, so representative distinct bits are used. -/

def COLLECTION_IS_MASTER : Nat := 1
def COLLECTION_RESTRICT_VIEW : Nat := 2
def COLLECTION_RESTRICT_SELECT : Nat := 4
def COLLECTION_RESTRICT_RENDER : Nat := 8

def BASE_SELECTED : Nat := 1
def BASE_VISIBLED : Nat := 2
def BASE_SELECTABLED : Nat := 4
def BASE_VISIBLE_VIEWPORT : Nat := 8
def BASE_VISIBLE_RENDER : Nat := 16

def LAYER_COLLECTION_EXCLUDE : Nat := 1

def VIEW_LAYER_RENDER : Nat := 1

/-- The four bits cleared up-front by `BKE_layer_collection_sync` (line 741)
and the only bits ever set by the object pass of `layer_collection_sync`. -/
def BASE_SYNC_MASK : Nat :=
  BASE_VISIBLED ||| BASE_SELECTABLED ||| BASE_VISIBLE_VIEWPORT ||| BASE_VISIBLE_RENDER

/-- `f &= ~m` on flag words: `(f ||| m) ^^^ m` clears exactly the bits of
`m`. -/
def clearMask (f m : Nat) : Nat := (f ||| m) ^^^ m

/-! ### Data model -/

/-- A `Collection` node as seen through `CollectionChild` links:
`cid` is the collection's pointer identity, `flag` its flag word
(`COLLECTION_IS_MASTER` and the three restrict bits), `children` the
`collection->children` list and `gobject` the `collection->gobject` list
(objects by pointer identity). -/
inductive SCol : Type where
  | node (cid : Nat) (flag : Nat) (children : List SCol) (gobject : List Nat)
deriving Repr

def SCol.cid : SCol → Nat
  | .node i _ _ _ => i

def SCol.flag : SCol → Nat
  | .node _ f _ _ => f

def SCol.children : SCol → List SCol
  | .node _ _ c _ => c

def SCol.gobject : SCol → List Nat
  | .node _ _ _ g => g

/-- A `LayerCollection`: allocation identity `tag`, weak back-reference
`collection` (`none` once ID remap clears it), local `flag`
(`LAYER_COLLECTION_EXCLUDE` bit), owned children list. -/
inductive LC : Type where
  | node (tag : Nat) (collection : Option Nat) (flag : Nat) (children : List LC)
deriving Repr

def LC.tag : LC → Nat
  | .node t _ _ _ => t

def LC.collection : LC → Option Nat
  | .node _ c _ _ => c

def LC.flag : LC → Nat
  | .node _ _ f _ => f

def LC.children : LC → List LC
  | .node _ _ _ c => c

/-- A `Base`: allocation identity `tag`, weak `object` reference, flag word. -/
structure Base where
  tag : Nat
  object : Nat
  flag : Nat
deriving Repr, DecidableEq

/-- A `ViewLayer` restricted to the state this subsystem owns: the layer
collection root list, the object base list, the active layer collection and
active base (weak, embedded as allocation tags), plus the two allocation
counters that embed `MEM_callocN` identity for bases and layer collections. -/
structure ViewLayer where
  layer_collections : List LC
  object_bases : List Base
  active_collection : Option Nat
  basact : Option Nat
  baseTag : Nat
  lcTag : Nat
deriving Repr

/-- The state threaded through `layer_collection_sync`:
`oldBases` is `view_layer->object_bases` (shrinking as bases move),
`newBases` the `new_object_bases` list being built, `baseTag` / `lcTag` the
allocation counters, `active` the `view_layer->active_collection` reference and
`viewFirst` the current `view_layer->layer_collections.first`. -/
structure SyncSt where
  oldBases : List Base
  newBases : List Base
  baseTag : Nat
  lcTag : Nat
  active : Option Nat
  viewFirst : Option Nat
deriving Repr

def headTag (l : List LC) : Option Nat := l.head?.map LC.tag

/-! ### Object pass (layer.c lines 681-711) -/

/-- Splits a base list around the first base carrying object `ob`
(the `BLI_ghash_lookup` result restricted to one list). -/
def splitBase : List Base → Nat → Option (List Base × Base × List Base)
  | [], _ => none
  | b :: rest, ob =>
    if b.object = ob then some ([], b, rest)
    else (splitBase rest ob).map (fun p => (b :: p.1, p.2.1, p.2.2))

/-- Flag bits OR-ed into a base by one visit with accumulated restriction word
`child_restrict` (layer.c lines 701-710). -/
def base_grant (child_restrict f : Nat) : Nat :=
  let f1 :=
    if child_restrict &&& COLLECTION_RESTRICT_VIEW = 0 then
      let f2 := f ||| BASE_VISIBLED ||| BASE_VISIBLE_VIEWPORT
      if child_restrict &&& COLLECTION_RESTRICT_SELECT = 0 then f2 ||| BASE_SELECTABLED
      else f2
    else f
  if child_restrict &&& COLLECTION_RESTRICT_RENDER = 0 then f1 ||| BASE_VISIBLE_RENDER
  else f1

/-- One iteration of the `for (cob = collection->gobject.first; ...)` loop
(layer.c lines 682-711).  The hash lookup finds the unique base carrying `ob`
in the new list or else the old list.  A base found in the new list is left in
place when it is the list's first or last element (the `ELEM` test); a base
found strictly inside the new list passes the `ELEM` test, and the
`BLI_remlink(&view_layer->object_bases, base)` then unlinks it from the *new*
list through its neighbour pointers (the old list's first/last cannot alias
it), so `BLI_addtail` relocates it to the new list's tail.  A base found in the
old list is moved to the new list's tail; an unknown object gets a fresh base
appended and inserted into the hash.  `base_sync_step` is the loop body's
action on the base state (the two base lists and the base allocation
counter); `object_base_sync` lifts it to the full sync state. -/
structure BaseSt where
  oldBases : List Base
  newBases : List Base
  baseTag : Nat
deriving Repr, DecidableEq

def base_sync_step (s : BaseSt) (ob : Nat) (child_restrict : Nat) : BaseSt :=
  match splitBase s.newBases ob with
  | some (pre, b, post) =>
    let b2 : Base := { b with flag := base_grant child_restrict b.flag }
    if pre = [] ∨ post = [] then
      { s with newBases := pre ++ b2 :: post }
    else
      { s with newBases := pre ++ post ++ [b2] }
  | none =>
    match splitBase s.oldBases ob with
    | some (pre, b, post) =>
      { s with
        oldBases := pre ++ post
        newBases := s.newBases ++ [{ b with flag := base_grant child_restrict b.flag }] }
    | none =>
      { s with
        newBases := s.newBases ++ [⟨s.baseTag, ob, base_grant child_restrict 0⟩]
        baseTag := s.baseTag + 1 }

def baseStOf (st : SyncSt) : BaseSt := ⟨st.oldBases, st.newBases, st.baseTag⟩

def object_base_sync (st : SyncSt) (ob : Nat) (child_restrict : Nat) : SyncSt :=
  let s := base_sync_step (baseStOf st) ob child_restrict
  { st with oldBases := s.oldBases, newBases := s.newBases, baseTag := s.baseTag }

/-! ### Recursive free (layer.c lines 85-96) -/

mutual

/-- `layer_collection_free`: if the freed node is the view's active layer
collection, the active reference is reset to the current
`view_layer->layer_collections.first` (embedded by `viewFirst`); then the
children are freed recursively. -/
def layer_collection_free (st : SyncSt) (lc : LC) : SyncSt :=
  match lc with
  | .node tag _ _ children =>
    let st1 := if st.active = some tag then { st with active := st.viewFirst } else st
    layer_collection_free_list st1 children

def layer_collection_free_list (st : SyncSt) : List LC → SyncSt
  | [] => st
  | c :: cs => layer_collection_free_list (layer_collection_free st c) cs

end

/-! ### Sync recursion (layer.c lines 623-717) -/

def sceneHas (lb_scene : List SCol) (c : Nat) : Bool :=
  lb_scene.any (fun sc => sc.cid = c)

/-- The prune loop (layer.c lines 632-646): drop every layer collection whose
backing collection is cleared or no longer among the source children, freeing
it recursively.  `firstKept` tracks the first retained element of the prefix
already processed; at the instant `layer_collection_free` runs, the C view
list still contains the node being freed (`BLI_freelinkN` comes after), so on
the top level `viewFirst` is set to `firstKept` or the current node before the
free, and to the head of what remains after the unlink. -/
def prune_pass (lb_scene : List SCol) (isTop : Bool) :
    List LC → Option Nat → SyncSt → List LC × SyncSt
  | [], _, st => ([], st)
  | lc :: rest, firstKept, st =>
    let keep :=
      match lc.collection with
      | some c => sceneHas lb_scene c
      | none => false
    if keep then
      let pr := prune_pass lb_scene isTop rest (firstKept <|> some lc.tag) st
      (lc :: pr.1, pr.2)
    else
      let st1 := if isTop then { st with viewFirst := firstKept <|> some lc.tag } else st
      let st2 := layer_collection_free st1 lc
      let st3 := if isTop then { st2 with viewFirst := firstKept <|> headTag rest } else st2
      prune_pass lb_scene isTop rest firstKept st3

/-- `BLI_findptr(lb_layer, collection, offsetof(LayerCollection, collection))`
followed by `BLI_remlink`: the first layer collection backed by `cid`,
together with the list with that element removed. -/
def lcFindRemove : List LC → Nat → Option (LC × List LC)
  | [], _ => none
  | lc :: rest, cid =>
    if lc.collection = some cid then some (lc, rest)
    else (lcFindRemove rest cid).map (fun p => (p.1, lc :: p.2))

/-- `child_restrict` computation (layer.c lines 664-668): restriction is
inherited as a union of flag words, except that a collection carrying
`COLLECTION_IS_MASTER` contributes nothing of its own. -/
def childRestrictF (parent_restrict cflag : Nat) : Nat :=
  if cflag &&& COLLECTION_IS_MASTER = 0 then parent_restrict ||| cflag
  else parent_restrict

mutual

/-- `layer_collection_sync` (layer.c lines 623-717): prune, then reconcile the
source children in order into a freshly built list. -/
def layer_collection_sync (lb_scene : List SCol) (lb_layer : List LC)
    (parent_exclude parent_restrict : Nat) (isTop : Bool) (st : SyncSt) :
    List LC × SyncSt :=
  let pr := prune_pass lb_scene isTop lb_layer none st
  let rc := reconcile_pass lb_scene pr.1 parent_exclude parent_restrict isTop pr.2
  (rc.1, if isTop then { rc.2 with viewFirst := headTag rc.1 } else rc.2)
termination_by (sizeOf lb_scene, 1)

/-- The reconcile loop (layer.c lines 651-712): for each source child, reuse
the matching layer collection (moving it out of the old list) or create a
fresh one seeded with the inherited exclude context; recurse into the child
collections first, then run the object pass unless this node is excluded. -/
def reconcile_pass (lb_scene : List SCol) (lb_layer : List LC)
    (parent_exclude parent_restrict : Nat) (isTop : Bool) (st : SyncSt) :
    List LC × SyncSt :=
  match lb_scene with
  | [] => ([], st)
  | SCol.node ci cf cch cgo :: rest =>
    let cr := childRestrictF parent_restrict cf
    match lcFindRemove lb_layer ci with
    | some p =>
      let st1 := if isTop then { st with viewFirst := headTag p.2 } else st
      let sub := layer_collection_sync cch p.1.children p.1.flag cr false st1
      let lc2 := LC.node p.1.tag p.1.collection p.1.flag sub.1
      let st2 :=
        if p.1.flag &&& LAYER_COLLECTION_EXCLUDE = 0 then
          cgo.foldl (fun s ob => object_base_sync s ob cr) sub.2
        else sub.2
      let tl := reconcile_pass rest p.2 parent_exclude parent_restrict isTop st2
      (lc2 :: tl.1, tl.2)
    | none =>
      let st1 := { st with lcTag := st.lcTag + 1 }
      let sub := layer_collection_sync cch [] parent_exclude cr false st1
      let lc2 := LC.node st.lcTag (some ci) parent_exclude sub.1
      let st2 :=
        if parent_exclude &&& LAYER_COLLECTION_EXCLUDE = 0 then
          cgo.foldl (fun s ob => object_base_sync s ob cr) sub.2
        else sub.2
      let tl := reconcile_pass rest lb_layer parent_exclude parent_restrict isTop st2
      (lc2 :: tl.1, tl.2)
termination_by (sizeOf lb_scene, 0)

end

/-! ### Active collection fix-up (layer.c lines 537-559, 767-775) -/

mutual

/-- `find_layer_collection_by_scene_collection` (layer.c lines 866-879):
preorder search for the first layer collection backed by `cid`. -/
def findLcByCollection (lc : LC) (cid : Nat) : Option LC :=
  match lc with
  | .node t c f ch =>
    if c = some cid then some (LC.node t c f ch)
    else findLcByCollectionList ch cid

def findLcByCollectionList : List LC → Nat → Option LC
  | [], _ => none
  | lc :: rest, cid =>
    match findLcByCollection lc cid with
    | some r => some r
    | none => findLcByCollectionList rest cid

end

/-- `BKE_layer_collection_first_from_scene_collection` (layer.c 884-897). -/
def BKE_layer_collection_first_from_scene_collection (roots : List LC) (cid : Nat) :
    Option LC :=
  findLcByCollectionList roots cid

mutual

/-- Preorder lookup of a layer collection by allocation tag; this embeds
dereferencing a `LayerCollection *`: a `some` result is a live node of the
tree, a `none` result means the pointer no longer designates any node. -/
def findLcByTag (lc : LC) (t : Nat) : Option LC :=
  match lc with
  | .node tag c f ch =>
    if tag = t then some (LC.node tag c f ch)
    else findLcByTagList ch t

def findLcByTagList : List LC → Nat → Option LC
  | [], _ => none
  | lc :: rest, t =>
    match findLcByTag lc t with
    | some r => some r
    | none => findLcByTagList rest t

end

/-- `BKE_layer_collection_activate_parent` (layer.c lines 537-559) as a fueled
walk: `parentOf` embeds `collection->parents.first` (the first parent link of
a collection in the DAG, `none` when the parents list is empty), `roots` the
view's layer collection list.  The C function recurses while the found parent
layer collection is excluded; a cyclic parents chain makes it diverge, which
the fuel models: a `none` result means the walk did not terminate within
`fuel` steps, `some a` means the walk terminated and set the active reference
to `a` (`a = none` exactly when it fell back to an empty root list). -/
def activate_parent_walk (parentOf : Nat → Option Nat) (roots : List LC) :
    Nat → LC → Option (Option Nat)
  | 0, _ => none
  | fuel + 1, lc =>
    let parent : Option Nat :=
      match lc.collection with
      | some c => parentOf c
      | none => none
    let lcNext : Option LC :=
      match parent with
      | some pc => BKE_layer_collection_first_from_scene_collection roots pc
      | none => none
    match lcNext with
    | some lc2 =>
      if lc2.flag &&& LAYER_COLLECTION_EXCLUDE = 0 then some (some lc2.tag)
      else activate_parent_walk parentOf roots fuel lc2
    | none => some (headTag roots)

/-! ### Top level sync (layer.c lines 724-776) -/

/-- The up-front clearing loop (layer.c lines 740-742). -/
def clearSyncFlags (bs : List Base) : List Base :=
  bs.map (fun b => { b with flag := clearMask b.flag BASE_SYNC_MASK })

/-- `BKE_layer_collection_sync`.  `master` is `scene->master_collection`
(`none` embeds the early return for un-versioned files).  `parentOf` and
`fuel` parameterize `BKE_layer_collection_activate_parent` as above; the
result is `none` exactly when that walk fails to terminate.  When the active
reference survives the sync but no longer designates a node of the tree, the
C code reads the freed node's flag word; the embedding resolves that read as
the `LAYER_COLLECTION_EXCLUDE` bit being clear (freshly `MEM_callocN`-ed
memory is zeroed), leaving the dangling reference in place. -/
def BKE_layer_collection_sync (parentOf : Nat → Option Nat) (fuel : Nat)
    (master : Option SCol) (vl : ViewLayer) : Option ViewLayer :=
  match master with
  | none => some vl
  | some m =>
    let st0 : SyncSt :=
      { oldBases := clearSyncFlags vl.object_bases
        newBases := []
        baseTag := vl.baseTag
        lcTag := vl.lcTag
        active := vl.active_collection
        viewFirst := headTag vl.layer_collections }
    let res := layer_collection_sync [m] vl.layer_collections 0 0 true st0
    let roots := res.1
    let st := res.2
    let basact2 : Option Nat :=
      match vl.basact with
      | some t => if st.oldBases.any (fun b => b.tag = t) then none else some t
      | none => none
    let vl1 : ViewLayer :=
      { layer_collections := roots
        object_bases := st.newBases
        active_collection := st.active
        basact := basact2
        baseTag := st.baseTag
        lcTag := st.lcTag }
    match st.active with
    | none => some { vl1 with active_collection := headTag roots }
    | some t =>
      match findLcByTagList roots t with
      | some lc =>
        if lc.flag &&& LAYER_COLLECTION_EXCLUDE = 0 then some vl1
        else
          match activate_parent_walk parentOf roots fuel lc with
          | some newActive => some { vl1 with active_collection := newActive }
          | none => none
      | none => some vl1

/-! ### Specification-side view of a sync

`visitsOf` enumerates, in traversal order, the object visits the reconcile
loop performs when its output tree is `lb_layer`: one entry `(ob, r)` per
object occurrence in the `gobject` list of a source child whose layer
collection is not excluded, with `r` the accumulated restriction word.  Each
entry corresponds to one path from the root to an occurrence of the directly
containing collection; a path counts as granting exactly when the layer
collection mirroring its final node lacks `LAYER_COLLECTION_EXCLUDE`
(exclusion is not inherited, layer.c lines 676-679). -/

def visitsOf : List SCol → List LC → Nat → List (Nat × Nat)
  | [], _, _ => []
  | _ :: _, [], _ => []
  | SCol.node _ cf cch cgo :: rest, lc :: ls, r =>
    let r2 := childRestrictF r cf
    (visitsOf cch lc.children r2 ++
      (if lc.flag &&& LAYER_COLLECTION_EXCLUDE = 0 then cgo.map (fun o => (o, r2)) else [])) ++
      visitsOf rest ls r

/-- Objects having at least one granting path. -/
def visitedObj (v : List (Nat × Nat)) (o : Nat) : Prop :=
  ∃ r, (o, r) ∈ v

instance (v : List (Nat × Nat)) (o : Nat) : Decidable (visitedObj v o) := by
  unfold visitedObj
  exact decidable_of_iff (∃ p ∈ v, p.1 = o)
    ⟨fun ⟨p, hp, h1⟩ => ⟨p.2, by simpa [← h1] using hp⟩, fun ⟨r, hr⟩ => ⟨(o, r), hr, rfl⟩⟩

/-- Bitwise union, over all granting paths for object `o`, of the flag bits
that path alone grants. -/
def grantsOr : List (Nat × Nat) → Nat → Nat
  | [], _ => 0
  | (ob, r) :: rest, o =>
    (if ob = o then base_grant r 0 else 0) ||| grantsOr rest o

/-- The layer collection child list mirrors the source child list: same length
at every level, and each node is backed by the corresponding source child. -/
def mirrorsB : List SCol → List LC → Bool
  | [], [] => true
  | SCol.node ci _ cch _ :: ss, lc :: ls =>
    lc.collection = some ci && mirrorsB cch lc.children && mirrorsB ss ls
  | _, _ => false

/-- Structural cardinality: at every level of the tree the layer child list
has exactly as many nodes as the source child list (spec invariant 1, the
`BLI_assert` of layer.c line 716). -/
def sameShape : List SCol → List LC → Bool
  | [], [] => true
  | SCol.node _ _ cch _ :: ss, lc :: ls => sameShape cch lc.children && sameShape ss ls
  | _, _ => false

/-! ### Override sets (layer.c lines 1014-1221) -/

/-- One of the two scopes a dynamic override property is classified into. -/
inductive PropScope : Type where
  | scene
  | collection
deriving Repr, DecidableEq

/-- `DynamicOverrideProperty` restricted to the fields this subsystem derives
itself; `data` stands for the snapshotted value payload (captured through the
external RNA accessors). -/
structure DynProp where
  idType : Nat
  scope : PropScope
  rna_path : String
  array_len : Nat
  data : Nat
deriving Repr, DecidableEq

/-- An `OverrideSet`: identity `tag`, the affected collection list (weak
collection references by identity), the active affected collection index, and
the two scoped property lists. -/
structure OverrideSetM where
  tag : Nat
  affected_collections : List Nat
  active_affected_collection : Nat
  scene_properties : List DynProp
  collection_properties : List DynProp
deriving Repr, DecidableEq

/-- The override-set state of a `ViewLayer`. -/
structure ViewLayerO where
  override_sets : List OverrideSetM
  active_override_set : Nat
deriving Repr, DecidableEq

/-- `BLI_findindex`: index of the first occurrence, `none` for the C result
`-1`. -/
def listIndex : List Nat → Nat → Option Nat
  | [], _ => none
  | x :: xs, t => if x = t then some 0 else (listIndex xs t).map (· + 1)

/-- `BKE_view_layer_override_set_remove` (layer.c lines 1032-1054): fail when
the set is not in the view's list, otherwise unlink and free it and fix up the
active index.  `MAX2(0, i - 1)` on C ints agrees with truncated `Nat`
subtraction here because `i ≥ 0`. -/
def BKE_view_layer_override_set_remove (vl : ViewLayerO) (t : Nat) :
    Bool × ViewLayerO :=
  match listIndex (vl.override_sets.map OverrideSetM.tag) t with
  | none => (false, vl)
  | some i =>
    let sets := vl.override_sets.eraseIdx i
    let a := vl.active_override_set
    let a2 :=
      if a > i then a - 1
      else if a = i then (if i = sets.length then max 0 (i - 1) else a)
      else a
    (true, { vl with override_sets := sets, active_override_set := a2 })

/-- `BKE_view_layer_override_set_collection_unlink` (layer.c lines 1075-1096):
`BLI_findptr` finds the first `LinkData` naming the collection,
`BLI_findindex` its index; absence fails, otherwise the link is removed and
the active affected collection index fixed up by the same shift rule. -/
def BKE_view_layer_override_set_collection_unlink (os : OverrideSetM) (c : Nat) :
    Bool × OverrideSetM :=
  match listIndex os.affected_collections c with
  | none => (false, os)
  | some i =>
    let lst := os.affected_collections.eraseIdx i
    let a := os.active_affected_collection
    let a2 :=
      if a > i then a - 1
      else if a = i then (if i = lst.length then max 0 (i - 1) else a)
      else a
    (true, { os with affected_collections := lst, active_affected_collection := a2 })

/-- The owner classification switch of `BKE_view_layer_override_property_add`
(layer.c lines 1125-1138): object, mesh and material owners are
collection-member scoped, scene and world owners scene scoped, everything else
is rejected.  The `GS(owner_id->name)` two-letter codes are embedded as
distinct numerals. -/
def ID_OB : Nat := 0
def ID_ME : Nat := 1
def ID_MA : Nat := 2
def ID_SCE : Nat := 3
def ID_WO : Nat := 4

def overridePropertyScope (id_type : Nat) : Option PropScope :=
  if id_type = ID_OB ∨ id_type = ID_ME ∨ id_type = ID_MA then some PropScope.collection
  else if id_type = ID_SCE ∨ id_type = ID_WO then some PropScope.scene
  else none

/-- The fixed maximum supported override array length,
`ARRAY_SIZE(((DynamicOverrideProperty *)NULL)->data.i)`.  Modelled from the
spec: the `DynamicOverrideProperty` DNA declaration is not among the sampled
sources, so the capacity of its inline value array is embedded as an
unspecified fixed constant. -/
def DYN_PROP_MAX_ARRAY_LEN : Nat := 8

/-- `BKE_view_layer_override_property_add` (layer.c lines 1115-1221).  The
external RNA calls are embedded as inputs: `rna_path` is the result of
`RNA_path_from_ID_to_property_index` (`none` for a NULL path), `array_len` the
result of `RNA_property_array_length`, and `data` the value snapshot read
through the RNA accessors. -/
def BKE_view_layer_override_property_add (os : OverrideSetM) (id_type : Nat)
    (rna_path : Option String) (array_len : Nat) (data : Nat) :
    Option DynProp × OverrideSetM :=
  match overridePropertyScope id_type with
  | none => (none, os)
  | some property_type =>
    match rna_path with
    | none => (none, os)
    | some path =>
      if array_len > DYN_PROP_MAX_ARRAY_LEN then (none, os)
      else
        let dyn_prop : DynProp :=
          { idType := id_type, scope := property_type, rna_path := path,
            array_len := array_len, data := data }
        if property_type = PropScope.scene then
          (some dyn_prop, { os with scene_properties := os.scene_properties ++ [dyn_prop] })
        else
          (some dyn_prop,
            { os with collection_properties := os.collection_properties ++ [dyn_prop] })

/-! ### Base selection (layer.c lines 378-384) -/

/-- `BKE_view_layer_base_select`: make the base the view's active base
unconditionally; set `BASE_SELECTED` only when the base carries
`BASE_SELECTABLED`.  The base is designated by its allocation tag. -/
def BKE_view_layer_base_select (vl : ViewLayer) (selTag : Nat) : ViewLayer :=
  { vl with
    basact := some selTag
    object_bases := vl.object_bases.map (fun b =>
      if b.tag = selTag then
        if b.flag &&& BASE_SELECTABLED = 0 then b
        else { b with flag := b.flag ||| BASE_SELECTED }
      else b) }

/-! ### Renderable objects iterator (layer.c lines 1483-1561)

The iterator walks the base lists of the starting scene's view layers and of
the background set scenes' default render view layers, deduplicating through
the per-object `LIB_TAG_DOIT` bit, embedded as the `tagged` set. -/

/-- A base as the iterator sees it. -/
structure BaseIt where
  object : Nat
  flag : Nat
deriving Repr, DecidableEq

/-- A view layer as the iterator sees it. -/
structure VLIt where
  flag : Nat
  object_bases : List BaseIt
deriving Repr, DecidableEq

/-- A scene as the iterator sees it. -/
structure SceneIt where
  view_layers : List VLIt
deriving Repr, DecidableEq

/-- The input of the iterator: the starting scene followed by the linked
chain of background set scenes (`scene->set`, then `set->set`, ...). -/
structure RenderData where
  scenes : List SceneIt
deriving Repr, DecidableEq

/-- `BKE_view_layer_default_render` (layer.c lines 125-135): the first view
layer flagged `VIEW_LAYER_RENDER`, else the first view layer (`none` embeds
the NULL pointer of a scene without view layers, an asserted-out state). -/
def BKE_view_layer_default_render (s : SceneIt) : Option VLIt :=
  match s.view_layers.find? (fun v => v.flag &&& VIEW_LAYER_RENDER != 0) with
  | some v => some v
  | none => s.view_layers.head?

/-- Iterator cursor: `tagged` is the set of objects whose `LIB_TAG_DOIT` bit
is still set, `bases` the bases after the current one in the current view
layer, `vls` the view layers after the current one in the starting scene,
`setsStarted` whether the `data->iter.set` phase has begun, `sets` the
remaining set scenes, and `valid` / `skip` / `current` the `BLI_Iterator`
fields. -/
structure RIter where
  tagged : List Nat
  bases : List BaseIt
  vls : List VLIt
  setsStarted : Bool
  sets : List SceneIt
  valid : Bool
  skip : Bool
  current : Option Nat
deriving Repr, DecidableEq

/-- The `while` advance over remaining view layers (layer.c lines 1537-1544):
first view layer flagged `VIEW_LAYER_RENDER`, plus the ones after it. -/
def findRenderVL : List VLIt → Option (VLIt × List VLIt)
  | [] => none
  | v :: rest =>
    if v.flag &&& VIEW_LAYER_RENDER = 0 then findRenderVL rest
    else some (v, rest)

/-- `BKE_view_layer_renderable_objects_iterator_next` (layer.c 1508-1561).
The C function sets `iter->skip` first and clears it again only when a base
yields; here every branch records the resulting `skip` value directly. -/
def renderable_objects_next (st : RIter) : RIter :=
  match st.bases with
  | b :: rest =>
    if st.tagged.contains b.object then
      if b.flag &&& BASE_VISIBLED = 0 then
        { st with skip := true, bases := rest,
                  tagged := st.tagged.filter (fun o => o ≠ b.object) }
      else
        { st with skip := false, current := some b.object, bases := rest,
                  tagged := st.tagged.filter (fun o => o ≠ b.object) }
    else
      { st with skip := true, bases := rest }
  | [] =>
    if st.setsStarted then
      match st.sets with
      | s :: rest =>
        match BKE_view_layer_default_render s with
        | some v => { st with skip := true, bases := v.object_bases, sets := rest }
        | none => { st with skip := true, bases := [], sets := rest }
      | [] => { st with skip := true, valid := false }
    else
      match findRenderVL st.vls with
      | some (v, rest) => { st with skip := true, bases := v.object_bases, vls := rest }
      | none => { st with skip := true, setsStarted := true }

/-- The tagging loop of the begin function (layer.c lines 1487-1494): every
object of every base of every view layer of every scene in the chain. -/
def allTagged (d : RenderData) : List Nat :=
  d.scenes.flatMap (fun s => s.view_layers.flatMap (fun v => v.object_bases.map BaseIt.object))

/-- `BKE_view_layer_renderable_objects_iterator_begin` (layer.c 1483-1506):
tag everything, queue the starting scene's first view layer, then take one
`next` step.  A chain without a starting scene embeds the unreachable NULL
`data->scene` and yields an invalid cursor. -/
def renderable_objects_begin (d : RenderData) : RIter :=
  match d.scenes with
  | [] => ⟨[], [], [], false, [], false, true, none⟩
  | scene :: sets =>
    renderable_objects_next
      { tagged := allTagged d
        bases := (scene.view_layers.head?.map VLIt.object_bases).getD []
        vls := scene.view_layers.drop 1
        setsStarted := false
        sets := sets
        valid := true
        skip := true
        current := none }

/-- Driving loop of the iterator macros: collect `current` whenever a step
left `skip` unset, stop once `valid` drops.  `fuel` bounds the number of
`next` calls; every theorem below holds for every fuel. -/
def renderable_objects_run : Nat → RIter → List Nat
  | 0, _ => []
  | fuel + 1, st =>
    if st.valid then
      (if st.skip then [] else [st.current.getD 0]) ++
        renderable_objects_run fuel (renderable_objects_next st)
    else []

/-- The base sequence the traversal covers, in order: the starting scene's
first view layer, the starting scene's further view layers flagged
`VIEW_LAYER_RENDER`, then each background set scene's default render view
layer. -/
def coveredBases (d : RenderData) : List BaseIt :=
  match d.scenes with
  | [] => []
  | scene :: sets =>
    (scene.view_layers.head?.map VLIt.object_bases).getD [] ++
      ((scene.view_layers.drop 1).filter (fun v => v.flag &&& VIEW_LAYER_RENDER != 0)).flatMap
        VLIt.object_bases ++
      sets.flatMap (fun s => ((BKE_view_layer_default_render s).map VLIt.object_bases).getD [])

/-! ### Derived notions used by the specification-side statements -/

def baseObjs (l : List Base) : List Nat := l.map Base.object

/-- The record the `object_bases_hash` lookup returns for `o` during a sync:
the unique base carrying `o` in the new list or else the old list. -/
def lookupBase (s : BaseSt) (o : Nat) : Option Base :=
  match splitBase s.newBases o with
  | some (_, b, _) => some b
  | none =>
    match splitBase s.oldBases o with
    | some (_, b, _) => some b
    | none => none

/-- The `Base` record a linear search of `l` returns for object `x` (the
position-free part of `splitBase`). -/
def recordOf (l : List Base) (x : Nat) : Option Base :=
  (splitBase l x).map (fun p => p.2.1)

/-- Cache coherence of a base state: no object carries two bases across the
old and new lists (spec invariant 3, assumed of every live view). -/
def distinctSt (s : BaseSt) : Prop :=
  (baseObjs s.oldBases ++ baseObjs s.newBases).Nodup

/-- Folding the object pass over a visit sequence. -/
def visitFold (v : List (Nat × Nat)) (s : BaseSt) : BaseSt :=
  v.foldl (fun s p => base_sync_step s p.1 p.2) s

mutual

/-- All allocation tags of a layer collection subtree, in preorder. -/
def lcTags (lc : LC) : List Nat :=
  match lc with
  | .node t _ _ ch => t :: lcTagsList ch

def lcTagsList : List LC → List Nat
  | [] => []
  | lc :: rest => lcTags lc ++ lcTagsList rest

end

/-- Statement bundle: the reconcile loop rebuilds a mirror of the source
children and its effect on the base state is the fold of the object pass over
the visit sequence read off its own output tree. -/
def ReconcileOk (s : List SCol) : Prop :=
  ∀ (l : List LC) (pe pr : Nat) (top : Bool) (st : SyncSt),
    mirrorsB s (reconcile_pass s l pe pr top st).1 = true ∧
    baseStOf (reconcile_pass s l pe pr top st).2 =
      visitFold (visitsOf s (reconcile_pass s l pe pr top st).1 pr) (baseStOf st)

/-- The same bundle for the full per-level sync (prune, then reconcile). -/
def SyncOk (s : List SCol) : Prop :=
  ∀ (l : List LC) (pe pr : Nat) (top : Bool) (st : SyncSt),
    mirrorsB s (layer_collection_sync s l pe pr top st).1 = true ∧
    baseStOf (layer_collection_sync s l pe pr top st).2 =
      visitFold (visitsOf s (layer_collection_sync s l pe pr top st).1 pr) (baseStOf st)

/-! ### Concrete instances used by the witnesses -/

def vlOverrideW : ViewLayerO :=
  ⟨[⟨1, [], 0, [], []⟩, ⟨2, [], 0, [], []⟩, ⟨3, [], 0, [], []⟩], 2⟩

def osOverrideW : OverrideSetM := ⟨7, [10, 20], 1, [], []⟩

def vlSelectW : ViewLayer :=
  ⟨[], [⟨1, 10, BASE_SELECTABLED⟩, ⟨2, 11, 0⟩], none, none, 3, 0⟩

def rdW : RenderData :=
  ⟨[⟨[⟨0, [⟨5, BASE_VISIBLED⟩, ⟨6, 0⟩]⟩, ⟨VIEW_LAYER_RENDER, [⟨5, BASE_VISIBLED⟩]⟩]⟩,
    ⟨[⟨VIEW_LAYER_RENDER, [⟨7, BASE_VISIBLED⟩]⟩]⟩]⟩


/-- The bases the cursor can still hand to the driver: the remainder of the
current base list, the base lists of the remaining render-flagged view layers
of the starting scene, and the base lists of the remaining set scenes'
default render view layers. -/
def pendingBases (st : RIter) : List BaseIt :=
  st.bases ++
    (if st.setsStarted then []
     else (st.vls.filter (fun v => v.flag &&& VIEW_LAYER_RENDER != 0)).flatMap
       VLIt.object_bases) ++
    st.sets.flatMap (fun s => ((BKE_view_layer_default_render s).map VLIt.object_bases).getD [])

/-- A two-path master scene: object 7 sits in collection 1 (view-restricted)
and in collection 2 (unrestricted), both children of master collection 100. -/
def mW : SCol :=
  SCol.node 100 COLLECTION_IS_MASTER
    [SCol.node 1 COLLECTION_RESTRICT_VIEW [] [7], SCol.node 2 0 [] [7]] []

/-- An empty fresh view layer. -/
def vlW : ViewLayer := ⟨[], [], none, none, 0, 0⟩

/-- The view layer `BKE_layer_collection_sync` builds from `mW` over `vlW`. -/
def vl1W : ViewLayer :=
  ⟨[LC.node 0 (some 100) 0 [LC.node 1 (some 1) 0 [], LC.node 2 (some 2) 0 []]],
    [⟨0, 7, 30⟩], some 0, none, 1, 3⟩

/-- A master scene whose first child (collection 1, holding object 7) is
excluded on the layer side, while the second child (collection 2, holding
object 9) is not. -/
def mE : SCol :=
  SCol.node 100 COLLECTION_IS_MASTER
    [SCol.node 1 0 [] [7], SCol.node 2 0 [] [9]] []

/-- A view layer whose tree marks the node of collection 1 EXCLUDE. -/
def vlE : ViewLayer :=
  ⟨[LC.node 5 (some 100) 0
      [LC.node 6 (some 1) LAYER_COLLECTION_EXCLUDE [], LC.node 7 (some 2) 0 []]],
    [], none, none, 0, 8⟩

/-- The view layer `BKE_layer_collection_sync` builds from `mE` over `vlE`. -/
def vlE' : ViewLayer :=
  ⟨[LC.node 5 (some 100) 0
      [LC.node 6 (some 1) LAYER_COLLECTION_EXCLUDE [], LC.node 7 (some 2) 0 []]],
    [⟨0, 9, 30⟩], some 5, none, 1, 8⟩

/-- A master with a single collection 10 and no children: the layer node of
collection 99 will be pruned. -/
def mC : SCol := SCol.node 10 COLLECTION_IS_MASTER [] []

/-- A view whose active node (tag 1, backing the vanished collection 99) is
also the first root at the instant it is pruned. -/
def vlC : ViewLayer :=
  ⟨[LC.node 1 (some 99) 0 [], LC.node 2 (some 10) 0 []], [], some 1, none, 0, 5⟩

/-- The view layer `BKE_layer_collection_sync` builds from `mC` over `vlC`:
the active reference still carries tag 1 although no node of the tree has it. -/
def vlC' : ViewLayer := ⟨[LC.node 2 (some 10) 0 []], [], some 1, none, 0, 5⟩

/-- The worker's output tree and state on the `mC`/`vlC` run. -/
def rootsC : List LC := [LC.node 2 (some 10) 0 []]

def stC : SyncSt := ⟨[], [], 0, 5, some 1, some 2⟩

/-! ## Helper lemmas -/

theorem testBit_clearMask (f m i : Nat) :
    (clearMask f m).testBit i = (f.testBit i && !(m.testBit i)) := by
  unfold clearMask
  rw [Nat.testBit_xor, Nat.testBit_lor]
  cases hf : f.testBit i <;> cases hm : m.testBit i <;> rfl

theorem land_testBit_eq_zero {f m : Nat} (h : f &&& m = 0) (i : Nat) :
    (f.testBit i && m.testBit i) = false := by
  have := congrArg (fun x => Nat.testBit x i) h
  simpa [Nat.testBit_land] using this

theorem clearMask_of_and_zero {f m : Nat} (h : f &&& m = 0) : clearMask f m = f := by
  apply Nat.eq_of_testBit_eq
  intro i
  rw [testBit_clearMask]
  have := land_testBit_eq_zero h i
  cases hf : f.testBit i <;> cases hm : m.testBit i <;> simp_all

theorem clearMask_lor_right {f g m : Nat} (h : g &&& m = g) :
    clearMask (f ||| g) m = clearMask f m := by
  apply Nat.eq_of_testBit_eq
  intro i
  rw [testBit_clearMask, testBit_clearMask, Nat.testBit_lor]
  have := congrArg (fun x => Nat.testBit x i) h
  simp only [Nat.testBit_land] at this
  cases hf : f.testBit i <;> cases hg : g.testBit i <;> cases hm : m.testBit i <;> simp_all

theorem clearMask_and_mask (f m : Nat) : clearMask f m &&& m = 0 := by
  apply Nat.eq_of_testBit_eq
  intro i
  rw [Nat.testBit_land, testBit_clearMask, Nat.zero_testBit]
  cases hf : f.testBit i <;> cases hm : m.testBit i <;> rfl

theorem lor_and_mask {x g m : Nat} (hx : x &&& m = 0) (hg : g &&& m = g) :
    (x ||| g) &&& m = g := by
  apply Nat.eq_of_testBit_eq
  intro i
  rw [Nat.testBit_land, Nat.testBit_lor]
  have h1 := land_testBit_eq_zero hx i
  have h2 := congrArg (fun y => Nat.testBit y i) hg
  simp only [Nat.testBit_land] at h2
  cases hxa : x.testBit i <;> cases hga : g.testBit i <;> cases hm : m.testBit i <;> simp_all

theorem land_lor_distrib (a b m : Nat) : (a ||| b) &&& m = (a &&& m) ||| (b &&& m) := by
  apply Nat.eq_of_testBit_eq
  intro i
  rw [Nat.testBit_land, Nat.testBit_lor, Nat.testBit_lor, Nat.testBit_land, Nat.testBit_land]
  cases a.testBit i <;> cases b.testBit i <;> cases m.testBit i <;> rfl

/-- The object pass only ever sets bits: one visit OR-s the granted bits into
the existing flag word. -/
theorem base_grant_or (r f : Nat) : base_grant r f = f ||| base_grant r 0 := by
  by_cases hv : r &&& COLLECTION_RESTRICT_VIEW = 0 <;>
    by_cases hs : r &&& COLLECTION_RESTRICT_SELECT = 0 <;>
      by_cases hr : r &&& COLLECTION_RESTRICT_RENDER = 0 <;>
        simp only [base_grant, hv, hs, hr, if_true, if_false] <;>
          (apply Nat.eq_of_testBit_eq; intro i;
           simp only [Nat.testBit_lor, Nat.zero_testBit];
           cases f.testBit i <;>
             cases (BASE_VISIBLED : Nat).testBit i <;>
               cases (BASE_VISIBLE_VIEWPORT : Nat).testBit i <;>
                 cases (BASE_SELECTABLED : Nat).testBit i <;>
                   cases (BASE_VISIBLE_RENDER : Nat).testBit i <;> rfl)

/-- The bits a visit grants all lie inside `BASE_SYNC_MASK`. -/
theorem base_grant_mask (r : Nat) :
    base_grant r 0 &&& BASE_SYNC_MASK = base_grant r 0 := by
  by_cases hv : r &&& COLLECTION_RESTRICT_VIEW = 0 <;>
    by_cases hs : r &&& COLLECTION_RESTRICT_SELECT = 0 <;>
      by_cases hr : r &&& COLLECTION_RESTRICT_RENDER = 0 <;>
        simp only [base_grant, hv, hs, hr, if_true, if_false] <;> decide

theorem grantsOr_mask (v : List (Nat × Nat)) (o : Nat) :
    grantsOr v o &&& BASE_SYNC_MASK = grantsOr v o := by
  induction v with
  | nil => simp [grantsOr]
  | cons p rest ih =>
    rcases p with ⟨ob, r⟩
    rw [grantsOr, land_lor_distrib, ih]
    by_cases h : ob = o
    · rw [if_pos h, base_grant_mask]
    · rw [if_neg h]
      simp

theorem splitBase_some :
    ∀ (l : List Base) (ob : Nat) (pre : List Base) (b : Base) (post : List Base),
      splitBase l ob = some (pre, b, post) →
      l = pre ++ b :: post ∧ b.object = ob ∧ ∀ x ∈ pre, x.object ≠ ob := by
  intro l
  induction l with
  | nil => intro ob pre b post h; simp [splitBase] at h
  | cons c rest ih =>
    intro ob pre b post h
    rw [splitBase] at h
    split at h
    · rename_i hc
      simp only [Option.some.injEq, Prod.mk.injEq] at h
      obtain ⟨h1, h2, h3⟩ := h
      subst h1; subst h2; subst h3
      exact ⟨by simp, hc, by simp⟩
    · rename_i hc
      rcases hsp : splitBase rest ob with _ | ⟨p1, pb, p2⟩
      · rw [hsp] at h; exact absurd h (by simp)
      · rw [hsp] at h
        simp only [Option.map_some', Option.some.injEq, Prod.mk.injEq] at h
        obtain ⟨h1, h2, h3⟩ := h
        subst h1; subst h2; subst h3
        obtain ⟨ih1, ih2, ih3⟩ := ih ob p1 pb p2 hsp
        refine ⟨by rw [List.cons_append, ← ih1], ih2, ?_⟩
        intro x hx
        rcases List.mem_cons.mp hx with h4 | h4
        · rw [h4]; exact hc
        · exact ih3 x h4

theorem splitBase_none :
    ∀ (l : List Base) (ob : Nat),
      splitBase l ob = none ↔ ∀ x ∈ l, x.object ≠ ob := by
  intro l
  induction l with
  | nil => intro ob; simp [splitBase]
  | cons c rest ih =>
    intro ob
    rw [splitBase]
    constructor
    · intro h x hx
      split at h
      · exact absurd h (by simp)
      · rename_i hc
        rcases List.mem_cons.mp hx with h4 | h4
        · rw [h4]; exact hc
        · rcases hsp : splitBase rest ob with _ | p
          · exact ((ih ob).mp hsp) x h4
          · rw [hsp] at h; exact absurd h (by simp)
    · intro h
      have hc : ¬ c.object = ob := h c (by simp)
      rw [if_neg hc, (ih ob).mpr (fun x hx => h x (List.mem_cons_of_mem c hx))]
      rfl

theorem listIndex_lt_length :
    ∀ (l : List Nat) (t i : Nat), listIndex l t = some i → i < l.length := by
  intro l
  induction l with
  | nil => intro t i h; simp [listIndex] at h
  | cons x xs ih =>
    intro t i h
    simp only [listIndex] at h
    split at h
    · injection h with h2
      simp only [List.length_cons]
      omega
    · rcases hopt : listIndex xs t with _ | j
      · rw [hopt] at h; exact absurd h (by simp)
      · rw [hopt] at h
        simp only [Option.map_some'] at h
        injection h with h2
        have := ih t j hopt
        simp only [List.length_cons]
        omega

/-- The active-index shift rule shared by `BKE_view_layer_override_set_remove`
and `BKE_view_layer_override_set_collection_unlink` keeps a valid index valid:
`i` is the removed index, `a` the active index, `len` the length before
removal. -/
theorem shiftIndex_valid (i a len : Nat) (hi : i < len) (ha : a < len) :
    (if a > i then a - 1
     else if a = i then (if i = len - 1 then max 0 (i - 1) else a)
     else a) ≤ len - 1 - 1 := by
  rcases Nat.lt_trichotomy a i with h | h | h
  · rw [if_neg (by omega), if_neg (by omega)]; omega
  · subst h
    rw [if_neg (by omega), if_pos rfl]
    by_cases he : a = len - 1
    · rw [if_pos he, Nat.zero_max]; omega
    · rw [if_neg he]; omega
  · rw [if_pos h]; omega

/-! ## Claim C8 -/

/-- C8.  `BKE_view_layer_override_set_remove` returns `false` and leaves the
view unchanged when the given set is not in the view's override-set list;
otherwise it removes the set and adjusts the active-override-set index so it
stays valid: decremented when it pointed past the removed index, clamped to
the new count minus one (and, being a natural number here, never negative,
matching `MAX2(0, _)` in the C code).  `BKE_view_layer_override_set_collection_unlink`
returns `false` when the collection is not in the set's affected-collection
list and otherwise applies the same shift rule to the active
affected-collection index. -/
theorem C8_override_set_remove_unlink (vl : ViewLayerO) (os : OverrideSetM) (t c : Nat) :
    (listIndex (vl.override_sets.map OverrideSetM.tag) t = none →
      BKE_view_layer_override_set_remove vl t = (false, vl)) ∧
    (∀ i, listIndex (vl.override_sets.map OverrideSetM.tag) t = some i →
      (BKE_view_layer_override_set_remove vl t).1 = true ∧
      (BKE_view_layer_override_set_remove vl t).2.override_sets =
        vl.override_sets.eraseIdx i ∧
      (vl.active_override_set > i →
        (BKE_view_layer_override_set_remove vl t).2.active_override_set =
          vl.active_override_set - 1) ∧
      (vl.active_override_set < vl.override_sets.length →
        (BKE_view_layer_override_set_remove vl t).2.active_override_set ≤
          (BKE_view_layer_override_set_remove vl t).2.override_sets.length - 1)) ∧
    (listIndex os.affected_collections c = none →
      BKE_view_layer_override_set_collection_unlink os c = (false, os)) ∧
    (∀ i, listIndex os.affected_collections c = some i →
      (BKE_view_layer_override_set_collection_unlink os c).1 = true ∧
      (BKE_view_layer_override_set_collection_unlink os c).2.affected_collections =
        os.affected_collections.eraseIdx i ∧
      (os.active_affected_collection > i →
        (BKE_view_layer_override_set_collection_unlink os c).2.active_affected_collection =
          os.active_affected_collection - 1) ∧
      (os.active_affected_collection < os.affected_collections.length →
        (BKE_view_layer_override_set_collection_unlink os c).2.active_affected_collection ≤
          (BKE_view_layer_override_set_collection_unlink os c).2.affected_collections.length
            - 1)) := by
  refine ⟨?_, ?_, ?_, ?_⟩
  · intro h; simp [BKE_view_layer_override_set_remove, h]
  · intro i h
    have hilen : i < vl.override_sets.length := by
      have := listIndex_lt_length _ t i h
      simpa using this
    have herase : (vl.override_sets.eraseIdx i).length = vl.override_sets.length - 1 := by
      simp [List.length_eraseIdx, hilen]
    refine ⟨by simp [BKE_view_layer_override_set_remove, h], ?_, ?_, ?_⟩
    · simp [BKE_view_layer_override_set_remove, h]
    · intro hgt
      simp only [BKE_view_layer_override_set_remove, h]
      rw [if_pos hgt]
    · intro hvalid
      simp only [BKE_view_layer_override_set_remove, h]
      rw [herase]
      exact shiftIndex_valid i vl.active_override_set vl.override_sets.length hilen hvalid
  · intro h; simp [BKE_view_layer_override_set_collection_unlink, h]
  · intro i h
    have hilen : i < os.affected_collections.length := listIndex_lt_length _ c i h
    have herase : (os.affected_collections.eraseIdx i).length =
        os.affected_collections.length - 1 := by
      simp [List.length_eraseIdx, hilen]
    refine ⟨by simp [BKE_view_layer_override_set_collection_unlink, h], ?_, ?_, ?_⟩
    · simp [BKE_view_layer_override_set_collection_unlink, h]
    · intro hgt
      simp only [BKE_view_layer_override_set_collection_unlink, h]
      rw [if_pos hgt]
    · intro hvalid
      simp only [BKE_view_layer_override_set_collection_unlink, h]
      rw [herase]
      exact shiftIndex_valid i os.active_affected_collection
        os.affected_collections.length hilen hvalid

/-- Witness for C8 at a concrete view (three sets, active index 2, removing
the middle one) and a concrete set (two collections, active index 1,
unlinking the last one). -/
theorem C8_override_set_remove_unlink_witness :
    (listIndex (vlOverrideW.override_sets.map OverrideSetM.tag) 2 = some 1 ∧
      vlOverrideW.active_override_set > 1 ∧
      vlOverrideW.active_override_set < vlOverrideW.override_sets.length) ∧
    (listIndex osOverrideW.affected_collections 20 = some 1 ∧
      osOverrideW.active_affected_collection < osOverrideW.affected_collections.length) ∧
    ((BKE_view_layer_override_set_remove vlOverrideW 2).1 = true ∧
      (BKE_view_layer_override_set_remove vlOverrideW 2).2.override_sets =
        vlOverrideW.override_sets.eraseIdx 1 ∧
      (vlOverrideW.active_override_set > 1 →
        (BKE_view_layer_override_set_remove vlOverrideW 2).2.active_override_set =
          vlOverrideW.active_override_set - 1) ∧
      (vlOverrideW.active_override_set < vlOverrideW.override_sets.length →
        (BKE_view_layer_override_set_remove vlOverrideW 2).2.active_override_set ≤
          (BKE_view_layer_override_set_remove vlOverrideW 2).2.override_sets.length - 1)) ∧
    ((BKE_view_layer_override_set_collection_unlink osOverrideW 20).1 = true ∧
      (BKE_view_layer_override_set_collection_unlink osOverrideW 20).2.affected_collections =
        osOverrideW.affected_collections.eraseIdx 1 ∧
      (osOverrideW.active_affected_collection > 1 →
        (BKE_view_layer_override_set_collection_unlink osOverrideW 20).2.active_affected_collection =
          osOverrideW.active_affected_collection - 1) ∧
      (osOverrideW.active_affected_collection < osOverrideW.affected_collections.length →
        (BKE_view_layer_override_set_collection_unlink osOverrideW 20).2.active_affected_collection ≤
          (BKE_view_layer_override_set_collection_unlink
            osOverrideW 20).2.affected_collections.length - 1)) := by
  refine ⟨by decide, by decide, ?_, ?_⟩
  · exact (C8_override_set_remove_unlink vlOverrideW osOverrideW 2 20).2.1 1 (by decide)
  · exact (C8_override_set_remove_unlink vlOverrideW osOverrideW 2 20).2.2.2 1 (by decide)

/-! ## Claim C9 -/

/-- C9.  `BKE_view_layer_override_property_add` returns null and appends
nothing to either property list when the owner's ID kind is not one of the
recognized kinds, when no RNA path can be resolved, or when the property's
array length exceeds the fixed supported maximum; on success it stores the
snapshotted inputs in a new property and appends it to exactly one of the
set's two lists: the scene-scoped list for scene-kind owners, the
collection-member-scoped list otherwise. -/
theorem C9_override_property_add (os : OverrideSetM) (id_type : Nat)
    (rna_path : Option String) (array_len data : Nat) :
    (overridePropertyScope id_type = none →
      BKE_view_layer_override_property_add os id_type rna_path array_len data =
        (none, os)) ∧
    (rna_path = none →
      BKE_view_layer_override_property_add os id_type rna_path array_len data =
        (none, os)) ∧
    (array_len > DYN_PROP_MAX_ARRAY_LEN →
      BKE_view_layer_override_property_add os id_type rna_path array_len data =
        (none, os)) ∧
    (∀ pt path, overridePropertyScope id_type = some pt → rna_path = some path →
      array_len ≤ DYN_PROP_MAX_ARRAY_LEN →
      ∃ p, BKE_view_layer_override_property_add os id_type rna_path array_len data =
          (some p,
            if pt = PropScope.scene then
              { os with scene_properties := os.scene_properties ++ [p] }
            else
              { os with collection_properties := os.collection_properties ++ [p] }) ∧
        p = { idType := id_type, scope := pt, rna_path := path,
              array_len := array_len, data := data }) := by
  refine ⟨?_, ?_, ?_, ?_⟩
  · intro h; simp [BKE_view_layer_override_property_add, h]
  · intro h
    cases hs : overridePropertyScope id_type with
    | none => simp [BKE_view_layer_override_property_add, hs]
    | some pt => simp [BKE_view_layer_override_property_add, hs, h]
  · intro h
    cases hs : overridePropertyScope id_type with
    | none => simp [BKE_view_layer_override_property_add, hs]
    | some pt =>
      cases hp : rna_path with
      | none => simp [BKE_view_layer_override_property_add, hs, hp]
      | some path =>
        simp [BKE_view_layer_override_property_add, hs, hp, if_pos h]
  · intro pt path hs hp hlen
    refine ⟨{ idType := id_type, scope := pt, rna_path := path,
              array_len := array_len, data := data }, ?_, rfl⟩
    simp only [BKE_view_layer_override_property_add, hs, hp]
    rw [if_neg (by omega)]
    by_cases hpt : pt = PropScope.scene
    · rw [if_pos hpt, if_pos hpt]
    · rw [if_neg hpt, if_neg hpt]

/-- Witness for C9: a world-kind owner with a resolvable path of array length
3 lands in the scene-scoped list; an unrecognized kind is rejected. -/
theorem C9_override_property_add_witness :
    (overridePropertyScope ID_WO = some PropScope.scene ∧
      (some "color" : Option String) = some "color" ∧ 3 ≤ DYN_PROP_MAX_ARRAY_LEN) ∧
    (∃ p, BKE_view_layer_override_property_add osOverrideW ID_WO (some "color") 3 42 =
        (some p,
          if PropScope.scene = PropScope.scene then
            { osOverrideW with scene_properties := osOverrideW.scene_properties ++ [p] }
          else
            { osOverrideW with
              collection_properties := osOverrideW.collection_properties ++ [p] }) ∧
      p = { idType := ID_WO, scope := PropScope.scene, rna_path := "color",
            array_len := 3, data := 42 }) ∧
    BKE_view_layer_override_property_add osOverrideW 99 (some "color") 3 42 =
      (none, osOverrideW) := by
  refine ⟨by decide, ?_, ?_⟩
  · exact (C9_override_property_add osOverrideW ID_WO (some "color") 3 42).2.2.2
      PropScope.scene "color" (by decide) rfl (by decide)
  · exact (C9_override_property_add osOverrideW 99 (some "color") 3 42).1 (by decide)

/-! ## Claim C10 -/

/-- C10.  For every view and every base of the view,
`BKE_view_layer_base_select` unconditionally makes the given base the view's
active base, even when the base lacks `BASE_SELECTABLED`; it sets the base's
`BASE_SELECTED` flag exactly when the base carries `BASE_SELECTABLED`, and
otherwise leaves the base's flag bits unchanged; all other bases are left
untouched. -/
theorem C10_base_select (vl : ViewLayer) (t : Nat) :
    (BKE_view_layer_base_select vl t).basact = some t ∧
    (∀ b ∈ vl.object_bases, b.tag = t → b.flag &&& BASE_SELECTABLED ≠ 0 →
      { b with flag := b.flag ||| BASE_SELECTED } ∈
        (BKE_view_layer_base_select vl t).object_bases) ∧
    (∀ b ∈ vl.object_bases, b.tag = t → b.flag &&& BASE_SELECTABLED = 0 →
      b ∈ (BKE_view_layer_base_select vl t).object_bases) ∧
    (∀ b ∈ vl.object_bases, b.tag ≠ t →
      b ∈ (BKE_view_layer_base_select vl t).object_bases) := by
  refine ⟨rfl, ?_, ?_, ?_⟩
  · intro b hb htag hsel
    have := List.mem_map_of_mem (f := fun b : Base =>
      if b.tag = t then
        if b.flag &&& BASE_SELECTABLED = 0 then b
        else { b with flag := b.flag ||| BASE_SELECTED }
      else b) hb
    simpa [BKE_view_layer_base_select, htag, hsel] using this
  · intro b hb htag hsel
    have := List.mem_map_of_mem (f := fun b : Base =>
      if b.tag = t then
        if b.flag &&& BASE_SELECTABLED = 0 then b
        else { b with flag := b.flag ||| BASE_SELECTED }
      else b) hb
    simpa [BKE_view_layer_base_select, htag, hsel] using this
  · intro b hb htag
    have := List.mem_map_of_mem (f := fun b : Base =>
      if b.tag = t then
        if b.flag &&& BASE_SELECTABLED = 0 then b
        else { b with flag := b.flag ||| BASE_SELECTED }
      else b) hb
    simpa [BKE_view_layer_base_select, htag] using this

/-- Witness for C10: base 1 is selectable and gets `BASE_SELECTED`; base 2
lacks `BASE_SELECTABLED` yet still becomes the active base with flags
untouched. -/
theorem C10_base_select_witness :
    ((⟨1, 10, BASE_SELECTABLED⟩ : Base) ∈ vlSelectW.object_bases ∧
      (⟨2, 11, 0⟩ : Base) ∈ vlSelectW.object_bases) ∧
    (⟨1, 10, BASE_SELECTABLED ||| BASE_SELECTED⟩ : Base) ∈
      (BKE_view_layer_base_select vlSelectW 1).object_bases ∧
    (BKE_view_layer_base_select vlSelectW 2).basact = some 2 ∧
    (⟨2, 11, 0⟩ : Base) ∈ (BKE_view_layer_base_select vlSelectW 2).object_bases := by
  refine ⟨by decide, ?_, ?_, ?_⟩
  · have h := (C10_base_select vlSelectW 1).2.1 ⟨1, 10, BASE_SELECTABLED⟩
      (by decide) rfl (by decide)
    simpa [BASE_SELECTABLED, BASE_SELECTED] using h
  · exact (C10_base_select vlSelectW 2).1
  · exact (C10_base_select vlSelectW 2).2.2.1 ⟨2, 11, 0⟩ (by decide) rfl (by decide)

/-! ## Claim C7: lemmas about the renderable-objects iterator -/

theorem findRenderVL_some (vls : List VLIt) (v : VLIt) (rest : List VLIt)
    (h : findRenderVL vls = some (v, rest)) :
    vls.filter (fun w => w.flag &&& VIEW_LAYER_RENDER != 0) =
      v :: rest.filter (fun w => w.flag &&& VIEW_LAYER_RENDER != 0) := by
  induction vls generalizing v rest with
  | nil => simp [findRenderVL] at h
  | cons w ws ih =>
    rw [findRenderVL] at h
    split at h
    · rename_i hw
      rw [List.filter_cons_of_neg (by simpa using hw)]
      exact ih _ _ h
    · rename_i hw
      injection h with h2
      injection h2 with hv hrest
      subst hv; subst hrest
      rw [List.filter_cons_of_pos (by simpa using hw)]

theorem findRenderVL_none (vls : List VLIt) (h : findRenderVL vls = none) :
    vls.filter (fun w => w.flag &&& VIEW_LAYER_RENDER != 0) = [] := by
  induction vls with
  | nil => simp
  | cons w ws ih =>
    rw [findRenderVL] at h
    split at h
    · rename_i hw
      rw [List.filter_cons_of_neg (by simpa using hw)]
      exact ih h
    · exact absurd h (by simp)

theorem renderable_next_tagged_subset (st : RIter) :
    ∀ o ∈ (renderable_objects_next st).tagged, o ∈ st.tagged := by
  intro o
  rcases hb : st.bases with _ | ⟨b, rest⟩ <;> simp only [renderable_objects_next, hb]
  · split
    · split
      · split <;> exact fun h => h
      · exact fun h => h
    · split
      · exact fun h => h
      · exact fun h => h
  · split
    · split
      · intro h; exact (List.mem_filter.mp h).1
      · intro h; exact (List.mem_filter.mp h).1
    · exact fun h => h

theorem renderable_next_inv (st : RIter) :
    (renderable_objects_next st).skip = false →
      ∃ o, (renderable_objects_next st).current = some o ∧
        o ∉ (renderable_objects_next st).tagged := by
  rcases hb : st.bases with _ | ⟨b, rest⟩ <;> simp only [renderable_objects_next, hb]
  · intro h
    exfalso
    revert h
    split
    · split
      · split <;> simp
      · simp
    · split <;> simp
  · split
    · split
      · intro h; simp at h
      · intro _
        refine ⟨b.object, rfl, ?_⟩
        intro hmem
        have := (List.mem_filter.mp hmem).2
        simp at this
    · intro h; simp at h

theorem renderable_next_not_skip (st : RIter) :
    (renderable_objects_next st).skip = false →
      ∃ b ∈ st.bases, (renderable_objects_next st).current = some b.object ∧
        b.flag &&& BASE_VISIBLED ≠ 0 ∧ b.object ∈ st.tagged := by
  rcases hb : st.bases with _ | ⟨b, rest⟩ <;> simp only [renderable_objects_next, hb]
  · intro h
    exfalso
    revert h
    split
    · split
      · split <;> simp
      · simp
    · split <;> simp
  · split
    · rename_i hcont
      split
      · intro h; simp at h
      · rename_i hvis
        intro _
        exact ⟨b, by simp, rfl, by simpa using hvis, by simpa using hcont⟩
    · intro h; simp at h

theorem renderable_next_pending (st : RIter) :
    ∀ x ∈ pendingBases (renderable_objects_next st), x ∈ pendingBases st := by
  intro x
  rcases hb : st.bases with _ | ⟨b, rest⟩
  · by_cases hss : st.setsStarted = true
    · rcases hsets : st.sets with _ | ⟨s, srest⟩
      · simp [renderable_objects_next, hb, hss, hsets, pendingBases]
      · rcases hdr : BKE_view_layer_default_render s with _ | v
        · simp [renderable_objects_next, hb, hss, hsets, hdr, pendingBases]
        · simp [renderable_objects_next, hb, hss, hsets, hdr, pendingBases]
    · rcases hfr : findRenderVL st.vls with _ | ⟨v, vrest⟩
      · have hfil := findRenderVL_none st.vls hfr
        simp [renderable_objects_next, hb, hss, hfr, pendingBases, hfil]
      · have hfil := findRenderVL_some st.vls v vrest hfr
        simp [renderable_objects_next, hb, hss, hfr, pendingBases, hfil]
  · simp only [renderable_objects_next, hb]
    split
    · split
      · simp only [pendingBases, hb]
        intro h
        rcases List.mem_append.mp h with h2 | h2
        · rcases List.mem_append.mp h2 with h3 | h3
          · exact List.mem_append_left _ (List.mem_append_left _ (List.mem_cons_of_mem b h3))
          · exact List.mem_append_left _ (List.mem_append_right _ h3)
        · exact List.mem_append_right _ h2
      · simp only [pendingBases, hb]
        intro h
        rcases List.mem_append.mp h with h2 | h2
        · rcases List.mem_append.mp h2 with h3 | h3
          · exact List.mem_append_left _ (List.mem_append_left _ (List.mem_cons_of_mem b h3))
          · exact List.mem_append_left _ (List.mem_append_right _ h3)
        · exact List.mem_append_right _ h2
    · simp only [pendingBases, hb]
      intro h
      rcases List.mem_append.mp h with h2 | h2
      · rcases List.mem_append.mp h2 with h3 | h3
        · exact List.mem_append_left _ (List.mem_append_left _ (List.mem_cons_of_mem b h3))
        · exact List.mem_append_left _ (List.mem_append_right _ h3)
      · exact List.mem_append_right _ h2

theorem renderable_run_nodup_sound (fuel : Nat) :
    ∀ st : RIter,
      (st.skip = false → ∃ o, st.current = some o ∧ o ∉ st.tagged) →
      (renderable_objects_run fuel st).Nodup ∧
      (∀ o ∈ renderable_objects_run fuel st,
        o ∈ st.tagged ∨ (st.skip = false ∧ st.current = some o)) ∧
      (∀ o ∈ renderable_objects_run fuel st,
        (st.skip = false ∧ st.current = some o) ∨
          ∃ b ∈ pendingBases st, b.object = o ∧ b.flag &&& BASE_VISIBLED ≠ 0) := by
  induction fuel with
  | zero => intro st _; simp [renderable_objects_run]
  | succ fuel ih =>
    intro st hinv
    by_cases hvalid : st.valid = true
    · rw [renderable_objects_run, if_pos hvalid]
      have ih2 := ih (renderable_objects_next st) (renderable_next_inv st)
      by_cases hskip : st.skip = true
      · rw [if_pos hskip]
        simp only [List.nil_append]
        refine ⟨ih2.1, ?_, ?_⟩
        · intro o ho
          rcases ih2.2.1 o ho with h | h
          · exact Or.inl (renderable_next_tagged_subset st o h)
          · obtain ⟨b, _, hcur, _, htag⟩ := renderable_next_not_skip st h.1
            rw [h.2] at hcur
            injection hcur with hcur
            exact Or.inl (by rw [hcur]; exact htag)
        · intro o ho
          right
          rcases ih2.2.2 o ho with h | h
          · obtain ⟨b, hbmem, hcur, hvis, _⟩ := renderable_next_not_skip st h.1
            rw [h.2] at hcur
            injection hcur with hcur
            refine ⟨b, ?_, hcur.symm, hvis⟩
            unfold pendingBases
            simp [hbmem]
          · obtain ⟨b, hbmem, hbo, hvis⟩ := h
            exact ⟨b, renderable_next_pending st b hbmem, hbo, hvis⟩
      · rw [if_neg hskip]
        have hskipf : st.skip = false := by
          rcases hsk : st.skip with _ | _
          · rfl
          · exact absurd hsk hskip
        obtain ⟨o0, hcur0, hnt0⟩ := hinv hskipf
        have hout : st.current.getD 0 = o0 := by rw [hcur0]; rfl
        rw [hout]
        have hrest := ih2
        refine ⟨?_, ?_, ?_⟩
        · refine List.nodup_cons.mpr ⟨?_, hrest.1⟩
          intro hmem
          rcases hrest.2.1 o0 hmem with h | h
          · exact hnt0 (renderable_next_tagged_subset st o0 h)
          · obtain ⟨b, _, hcur, _, htag⟩ := renderable_next_not_skip st h.1
            rw [h.2] at hcur
            injection hcur with hcur
            exact hnt0 (by rw [hcur]; exact htag)
        · intro o ho
          rcases List.mem_cons.mp ho with h | h
          · exact Or.inr ⟨hskipf, h ▸ hcur0⟩
          · rcases hrest.2.1 o h with h2 | h2
            · exact Or.inl (renderable_next_tagged_subset st o h2)
            · obtain ⟨b, _, hcur, _, htag⟩ := renderable_next_not_skip st h2.1
              rw [h2.2] at hcur
              injection hcur with hcur
              exact Or.inl (by rw [hcur]; exact htag)
        · intro o ho
          rcases List.mem_cons.mp ho with h | h
          · exact Or.inl ⟨hskipf, h ▸ hcur0⟩
          · right
            rcases hrest.2.2 o h with h2 | h2
            · obtain ⟨b, hbmem, hcur, hvis, _⟩ := renderable_next_not_skip st h2.1
              rw [h2.2] at hcur
              injection hcur with hcur
              refine ⟨b, ?_, hcur.symm, hvis⟩
              unfold pendingBases
              simp [hbmem]
            · obtain ⟨b, hbmem, hbo, hvis⟩ := h2
              exact ⟨b, renderable_next_pending st b hbmem, hbo, hvis⟩
    · rw [renderable_objects_run, if_neg hvalid]
      simp

theorem pending_begin_eq_covered (d : RenderData) (scene : SceneIt) (sets : List SceneIt)
    (hd : d.scenes = scene :: sets) :
    pendingBases
      { tagged := allTagged d
        bases := (scene.view_layers.head?.map VLIt.object_bases).getD []
        vls := scene.view_layers.drop 1
        setsStarted := false
        sets := sets
        valid := true
        skip := true
        current := none } = coveredBases d := by
  unfold pendingBases coveredBases
  rw [hd]
  simp

/-- C7.  A full traversal of the cross-scene renderable-objects iterator
yields every object at most once, even when the object has bases in several
view layers of the starting scene or in background set scenes, and it yields
an object only when the base under consideration carries `BASE_VISIBLED`;
every yielded object comes from the covered base sequence: the starting
scene's first view layer, then the further view layers of the starting scene
flagged `VIEW_LAYER_RENDER`, then each background set scene's default render
view layer, the deduplication being the per-object tag set filled at begin and
drained as objects are first encountered. -/
theorem C7_renderable_iterator (d : RenderData) (fuel : Nat) :
    (renderable_objects_run fuel (renderable_objects_begin d)).Nodup ∧
    (∀ o ∈ renderable_objects_run fuel (renderable_objects_begin d),
      ∃ b ∈ coveredBases d, b.object = o ∧ b.flag &&& BASE_VISIBLED ≠ 0) := by
  rcases hd : d.scenes with _ | ⟨scene, sets⟩
  · rw [renderable_objects_begin, hd]
    rcases fuel with _ | fuel
    · simp [renderable_objects_run]
    · rw [renderable_objects_run]
      simp
  · rw [renderable_objects_begin, hd]
    set st0 : RIter :=
      { tagged := allTagged d
        bases := (scene.view_layers.head?.map VLIt.object_bases).getD []
        vls := scene.view_layers.drop 1
        setsStarted := false
        sets := sets
        valid := true
        skip := true
        current := none } with hst0
    have hmain := renderable_run_nodup_sound fuel (renderable_objects_next st0)
      (renderable_next_inv st0)
    refine ⟨hmain.1, ?_⟩
    intro o ho
    rcases hmain.2.2 o ho with h | h
    · obtain ⟨b, hbmem, hcur, hvis, _⟩ := renderable_next_not_skip st0 h.1
      rw [h.2] at hcur
      injection hcur with hcur
      refine ⟨b, ?_, hcur.symm, hvis⟩
      rw [← pending_begin_eq_covered d scene sets hd]
      unfold pendingBases
      simp [hbmem]
    · obtain ⟨b, hbmem, hbo, hvis⟩ := h
      refine ⟨b, ?_, hbo, hvis⟩
      rw [← pending_begin_eq_covered d scene sets hd]
      exact renderable_next_pending st0 b hbmem

/-- Witness for C7: object 5 has visible bases both in the starting scene's
first view layer, in its render-flagged second view layer, and object 7 lives
in the background set scene; the full traversal is duplicate-free and its
yields come from covered visible bases. -/
theorem C7_renderable_iterator_witness :
    renderable_objects_run 10 (renderable_objects_begin rdW) = [5, 7] ∧
    5 ∈ renderable_objects_run 10 (renderable_objects_begin rdW) ∧
    (renderable_objects_run 10 (renderable_objects_begin rdW)).Nodup ∧
    ∃ b ∈ coveredBases rdW, b.object = 5 ∧ b.flag &&& BASE_VISIBLED ≠ 0 := by
  refine ⟨by decide, by decide, (C7_renderable_iterator rdW 10).1,
    (C7_renderable_iterator rdW 10).2 5 (by decide)⟩

/-! ## Record lookup algebra -/

theorem recordOf_nil (x : Nat) : recordOf [] x = none := rfl

theorem recordOf_cons (c : Base) (l : List Base) (x : Nat) :
    recordOf (c :: l) x = if c.object = x then some c else recordOf l x := by
  rw [recordOf, splitBase]
  by_cases h : c.object = x
  · rw [if_pos h, if_pos h]; rfl
  · rw [if_neg h, if_neg h, recordOf, Option.map_map]
    rfl

theorem recordOf_append (l1 l2 : List Base) (x : Nat) :
    recordOf (l1 ++ l2) x = (recordOf l1 x).orElse (fun _ => recordOf l2 x) := by
  induction l1 with
  | nil => rfl
  | cons c cs ih =>
    rw [List.cons_append, recordOf_cons, recordOf_cons]
    by_cases h : c.object = x
    · rw [if_pos h, if_pos h]; rfl
    · rw [if_neg h, if_neg h, ih]

theorem recordOf_eq_none (l : List Base) (x : Nat) :
    recordOf l x = none ↔ ∀ b ∈ l, b.object ≠ x := by
  rw [recordOf, Option.map_eq_none', splitBase_none]

theorem recordOf_eq_some_object (l : List Base) (x : Nat) (b : Base)
    (h : recordOf l x = some b) : b.object = x ∧ b ∈ l := by
  rw [recordOf] at h
  rcases hsp : splitBase l x with _ | ⟨⟨pre, c, post⟩⟩
  · rw [hsp] at h; exact absurd h (by simp)
  · rw [hsp] at h
    simp only [Option.map_some', Option.some.injEq] at h
    obtain ⟨hl, hc, _⟩ := splitBase_some l x pre c post hsp
    subst h
    exact ⟨hc, by rw [hl]; simp⟩

theorem lookupBase_eq (s : BaseSt) (x : Nat) :
    lookupBase s x = (recordOf s.newBases x).orElse (fun _ => recordOf s.oldBases x) := by
  rw [lookupBase, recordOf, recordOf]
  rcases splitBase s.newBases x with _ | ⟨⟨pre, b, post⟩⟩
  · rcases splitBase s.oldBases x with _ | ⟨⟨pre, b, post⟩⟩ <;> rfl
  · rfl

/-- In a duplicate-free list, a member carrying object `x` is the record the
search returns. -/
theorem recordOf_unique (l : List Base) (x : Nat) (b : Base)
    (hnd : (baseObjs l).Nodup) (hb : b ∈ l) (hbx : b.object = x) :
    recordOf l x = some b := by
  induction l with
  | nil => simp at hb
  | cons c cs ih =>
    rw [recordOf_cons]
    rcases List.mem_cons.mp hb with h | h
    · subst h; rw [if_pos hbx]
    · by_cases hc : c.object = x
      · exfalso
        have : c.object ∈ baseObjs cs := by
          rw [hc, ← hbx]
          exact List.mem_map_of_mem Base.object h
        have hnd2 : c.object ∉ baseObjs cs := by
          have := hnd
          simp only [baseObjs, List.map_cons, List.nodup_cons] at this
          exact this.1
        exact hnd2 this
      · rw [if_neg hc]
        refine ih ?_ h
        have := hnd
        simp only [baseObjs, List.map_cons, List.nodup_cons] at this
        exact this.2

/-- Splitting off the unique base of object `ob` is list filtering. -/
theorem splitBase_filter (l : List Base) (ob : Nat) (pre : List Base) (b : Base)
    (post : List Base) (hnd : (baseObjs l).Nodup)
    (h : splitBase l ob = some (pre, b, post)) :
    pre ++ post = l.filter (fun x => x.object != ob) := by
  obtain ⟨hl, hb, hpre⟩ := splitBase_some l ob pre b post h
  have hpost : ∀ x ∈ post, x.object ≠ ob := by
    intro x hx hxo
    have hnd2 : (baseObjs pre ++ b.object :: baseObjs post).Nodup := by
      have := hnd
      rw [hl] at this
      simpa [baseObjs] using this
    have hnd3 := (List.Nodup.of_append_right hnd2)
    have : b.object ∉ baseObjs post := (List.nodup_cons.mp hnd3).1
    exact this (by rw [hb, ← hxo]; exact List.mem_map_of_mem Base.object hx)
  rw [hl, List.filter_append, List.filter_cons]
  have hbneg : (b.object != ob) = false := by simp [hb]
  rw [hbneg]
  simp only [Bool.false_eq_true, if_false]
  rw [List.filter_eq_self.mpr (fun a ha => by simpa using hpre a ha),
      List.filter_eq_self.mpr (fun a ha => by simpa using hpost a ha)]

/-! ## Object-pass step lemmas -/

theorem step_old_subset (s : BaseSt) (ob r : Nat) :
    ∀ b ∈ (base_sync_step s ob r).oldBases, b ∈ s.oldBases := by
  intro x
  rcases hn : splitBase s.newBases ob with _ | ⟨⟨pre, b, post⟩⟩
  · rcases ho : splitBase s.oldBases ob with _ | ⟨⟨pre, b, post⟩⟩
    · simp only [base_sync_step, hn, ho]
      exact fun h => h
    · simp only [base_sync_step, hn, ho]
      obtain ⟨hl, _, _⟩ := splitBase_some _ _ _ _ _ ho
      rw [hl]
      intro h
      rcases List.mem_append.mp h with h2 | h2
      · exact List.mem_append_left _ h2
      · exact List.mem_append_right _ (List.mem_cons_of_mem b h2)
  · simp only [base_sync_step, hn]
    split <;> exact fun h => h

theorem step_new_mem (s : BaseSt) (ob r x : Nat) :
    x ∈ baseObjs (base_sync_step s ob r).newBases ↔
      x ∈ baseObjs s.newBases ∨ x = ob := by
  rcases hn : splitBase s.newBases ob with _ | ⟨⟨pre, b, post⟩⟩
  · rcases ho : splitBase s.oldBases ob with _ | ⟨⟨pre, b, post⟩⟩
    · simp only [base_sync_step, hn, ho]
      simp [baseObjs, eq_comm]
    · simp only [base_sync_step, hn, ho]
      obtain ⟨hl, hb, _⟩ := splitBase_some _ _ _ _ _ ho
      simp [baseObjs, hb, eq_comm]
  · obtain ⟨hl, hb, _⟩ := splitBase_some _ _ _ _ _ hn
    simp only [base_sync_step, hn]
    split <;> rw [hl] <;>
      simp only [baseObjs, List.map_append, List.map_cons, List.map_nil, List.mem_append,
        List.mem_cons, List.mem_singleton, hb] <;>
      aesop

theorem step_baseTag (s : BaseSt) (ob r : Nat) :
    (base_sync_step s ob r).baseTag =
      if lookupBase s ob = none then s.baseTag + 1 else s.baseTag := by
  rcases hn : splitBase s.newBases ob with _ | ⟨⟨pre, b, post⟩⟩
  · rcases ho : splitBase s.oldBases ob with _ | ⟨⟨pre, b, post⟩⟩
    · simp only [base_sync_step, hn, ho, lookupBase]
      simp
    · simp only [base_sync_step, hn, ho, lookupBase]
      simp
  · simp only [base_sync_step, hn, lookupBase]
    split <;> simp

theorem splitBase_post_not_ob (l : List Base) (ob : Nat) (pre : List Base) (b : Base)
    (post : List Base) (hnd : (baseObjs l).Nodup)
    (h : splitBase l ob = some (pre, b, post)) :
    ∀ x ∈ post, x.object ≠ ob := by
  obtain ⟨hl, hb, _⟩ := splitBase_some l ob pre b post h
  intro x hx hxo
  have hnd2 : (baseObjs pre ++ b.object :: baseObjs post).Nodup := by
    have := hnd
    rw [hl] at this
    simpa [baseObjs] using this
  have hnd3 := List.Nodup.of_append_right hnd2
  exact (List.nodup_cons.mp hnd3).1
    (by rw [hb, ← hxo]; exact List.mem_map_of_mem Base.object hx)

theorem step_distinct (s : BaseSt) (ob r : Nat) (hD : distinctSt s) :
    distinctSt (base_sync_step s ob r) := by
  unfold distinctSt at hD ⊢
  rcases hn : splitBase s.newBases ob with _ | ⟨⟨pre, b, post⟩⟩
  · rcases ho : splitBase s.oldBases ob with _ | ⟨⟨pre, b, post⟩⟩
    · simp only [base_sync_step, hn, ho]
      have hnew := (splitBase_none _ _).mp hn
      have hold := (splitBase_none _ _).mp ho
      simp only [baseObjs, List.map_append, List.map_cons, List.map_nil] at hD ⊢
      rw [List.nodup_append] at hD
      rw [List.nodup_append]
      refine ⟨hD.1, ?_, ?_⟩
      · rw [List.nodup_append]
        refine ⟨hD.2.1, List.nodup_singleton ob, ?_⟩
        intro a ha hb2
        rw [List.mem_singleton] at hb2
        subst hb2
        obtain ⟨c, hc, hco⟩ := List.mem_map.mp ha
        exact hnew c hc hco
      · intro a ha hmem
        rcases List.mem_append.mp hmem with h2 | h2
        · exact hD.2.2 ha h2
        · rw [List.mem_singleton] at h2
          subst h2
          obtain ⟨c, hc, hco⟩ := List.mem_map.mp ha
          exact hold c hc hco
    · simp only [base_sync_step, hn, ho]
      obtain ⟨hl, hb, _⟩ := splitBase_some _ _ _ _ _ ho
      rw [hl] at hD
      simp only [baseObjs, List.map_append, List.map_cons, List.map_nil] at hD ⊢
      rw [hb] at hD
      refine List.Perm.nodup ?_ hD
      have p1 : (List.map Base.object pre ++ ob :: List.map Base.object post ++
            List.map Base.object s.newBases).Perm
          ((ob :: (List.map Base.object pre ++ List.map Base.object post)) ++
            List.map Base.object s.newBases) :=
        List.Perm.append_right _ List.perm_middle
      have p2 : ((ob :: (List.map Base.object pre ++ List.map Base.object post)) ++
            List.map Base.object s.newBases).Perm
          (((List.map Base.object pre ++ List.map Base.object post) ++
            List.map Base.object s.newBases) ++ [ob]) :=
        (List.perm_append_singleton _ _).symm
      have p3 := p1.trans p2
      simpa [hb, List.append_assoc] using p3
  · obtain ⟨hl, hb, _⟩ := splitBase_some _ _ _ _ _ hn
    simp only [base_sync_step, hn]
    split
    · rw [hl] at hD
      simpa [baseObjs] using hD
    · rw [hl] at hD
      simp only [baseObjs, List.map_append, List.map_cons, List.map_nil] at hD ⊢
      rw [hb] at hD
      refine List.Perm.nodup (List.Perm.append_left _ ?_) hD
      have p1 : (List.map Base.object pre ++ ob :: List.map Base.object post).Perm
          (ob :: (List.map Base.object pre ++ List.map Base.object post)) :=
        List.perm_middle
      have p2 : (ob :: (List.map Base.object pre ++ List.map Base.object post)).Perm
          ((List.map Base.object pre ++ List.map Base.object post) ++ [ob]) :=
        (List.perm_append_singleton _ _).symm
      have p3 := p1.trans p2
      simpa [hb, List.append_assoc] using p3

/-- After a visit of `ob`, the hash lookup of `ob` returns the old record
with the granted bits OR-ed in, or, for an unknown object, the freshly
created base. -/
theorem step_lookup_hit (s : BaseSt) (ob r : Nat) (hD : distinctSt s) :
    lookupBase (base_sync_step s ob r) ob =
      some (match lookupBase s ob with
            | some b => { b with flag := base_grant r b.flag }
            | none => ⟨s.baseTag, ob, base_grant r 0⟩) := by
  rcases hn : splitBase s.newBases ob with _ | ⟨⟨pre, b, post⟩⟩
  · rcases ho : splitBase s.oldBases ob with _ | ⟨⟨pre, b, post⟩⟩
    · have hnone : lookupBase s ob = none := by rw [lookupBase, hn, ho]
      rw [hnone, lookupBase_eq]
      simp only [base_sync_step, hn, ho]
      rw [recordOf_append, recordOf, hn]
      simp [recordOf_cons]
    · have hsome : lookupBase s ob = some b := by rw [lookupBase, hn, ho]
      obtain ⟨hl, hb, _⟩ := splitBase_some _ _ _ _ _ ho
      rw [hsome, lookupBase_eq]
      simp only [base_sync_step, hn, ho]
      rw [recordOf_append, recordOf, hn]
      simp [recordOf_cons, hb]
  · have hsome : lookupBase s ob = some b := by rw [lookupBase, hn]
    obtain ⟨hl, hb, hpre⟩ := splitBase_some _ _ _ _ _ hn
    have hpre2 : recordOf pre ob = none := (recordOf_eq_none _ _).mpr hpre
    rw [hsome]
    simp only [base_sync_step, hn]
    split
    · rw [lookupBase_eq]
      simp only
      rw [recordOf_append, hpre2, recordOf_cons]
      simp [hb]
    · have hndnew : (baseObjs s.newBases).Nodup := by
        unfold distinctSt at hD
        exact List.Nodup.of_append_right hD
      have hpost : ∀ x ∈ post, x.object ≠ ob := splitBase_post_not_ob _ _ _ _ _ hndnew hn
      have hpost2 : recordOf post ob = none := (recordOf_eq_none _ _).mpr hpost
      rw [lookupBase_eq]
      simp only
      rw [recordOf_append, recordOf_append, hpre2, hpost2]
      simp [recordOf_cons, hb]

/-- Visiting `ob` does not disturb the lookup of any other object. -/
theorem step_lookup_miss (s : BaseSt) (ob r x : Nat) (hx : x ≠ ob) :
    lookupBase (base_sync_step s ob r) x = lookupBase s x := by
  rcases hn : splitBase s.newBases ob with _ | ⟨⟨pre, b, post⟩⟩
  · rcases ho : splitBase s.oldBases ob with _ | ⟨⟨pre, b, post⟩⟩
    · rw [lookupBase_eq, lookupBase_eq]
      simp only [base_sync_step, hn, ho]
      rw [recordOf_append, recordOf_cons]
      have : ((⟨s.baseTag, ob, base_grant r 0⟩ : Base).object = x) = False := by
        simp
        exact fun h => hx (h.symm)
      rw [recordOf_nil]
      simp only [this, if_false]
      rcases recordOf s.newBases x with _ | c <;> rfl
    · obtain ⟨hl, hb, _⟩ := splitBase_some _ _ _ _ _ ho
      rw [lookupBase_eq, lookupBase_eq]
      simp only [base_sync_step, hn, ho]
      have h1 : (({ b with flag := base_grant r b.flag } : Base).object = x) = False := by
        simp only [eq_iff_iff, iff_false]
        intro h
        exact hx (by rw [← h, hb])
      have h2 : (b.object = x) = False := by
        simp only [eq_iff_iff, iff_false]
        intro h
        exact hx (by rw [← h, hb])
      rw [recordOf_append, recordOf_cons, recordOf_nil, hl, recordOf_append, recordOf_append,
        recordOf_cons]
      simp only [h1, h2, if_false]
      rcases recordOf s.newBases x with _ | c <;>
        rcases recordOf pre x with _ | d <;>
          rcases recordOf post x with _ | e <;> rfl
  · obtain ⟨hl, hb, hpre⟩ := splitBase_some _ _ _ _ _ hn
    have h1 : (({ b with flag := base_grant r b.flag } : Base).object = x) = False := by
      simp only [eq_iff_iff, iff_false]
      intro h
      exact hx (by rw [← h, hb])
    have h2 : (b.object = x) = False := by
      simp only [eq_iff_iff, iff_false]
      intro h
      exact hx (by rw [← h, hb])
    simp only [base_sync_step, hn]
    split
    · rw [lookupBase_eq, lookupBase_eq]
      simp only
      rw [hl, recordOf_append, recordOf_append, recordOf_cons, recordOf_cons]
      simp only [h1, h2, if_false]
    · rw [lookupBase_eq, lookupBase_eq]
      simp only
      rw [hl, recordOf_append, recordOf_append, recordOf_append, recordOf_cons, recordOf_cons,
        recordOf_nil]
      simp only [h1, h2, if_false]
      rcases recordOf pre x with _ | d <;>
        rcases recordOf post x with _ | e <;> rfl

/-! ## Visit-fold lemmas -/

theorem visitFold_nil (s : BaseSt) : visitFold [] s = s := rfl

theorem visitFold_cons (p : Nat × Nat) (v : List (Nat × Nat)) (s : BaseSt) :
    visitFold (p :: v) s = visitFold v (base_sync_step s p.1 p.2) := rfl

theorem visitFold_append (v1 v2 : List (Nat × Nat)) (s : BaseSt) :
    visitFold (v1 ++ v2) s = visitFold v2 (visitFold v1 s) := by
  unfold visitFold
  rw [List.foldl_append]

theorem visitedObj_cons (ob r : Nat) (v : List (Nat × Nat)) (x : Nat) :
    visitedObj ((ob, r) :: v) x ↔ x = ob ∨ visitedObj v x := by
  unfold visitedObj
  simp only [List.mem_cons, Prod.mk.injEq]
  aesop

theorem visitFold_distinct (v : List (Nat × Nat)) :
    ∀ s : BaseSt, distinctSt s → distinctSt (visitFold v s) := by
  induction v with
  | nil => intro s h; exact h
  | cons p rest ih =>
    intro s h
    rw [visitFold_cons]
    exact ih _ (step_distinct s p.1 p.2 h)

theorem visitFold_new_mem (v : List (Nat × Nat)) :
    ∀ (s : BaseSt) (x : Nat),
      x ∈ baseObjs (visitFold v s).newBases ↔
        x ∈ baseObjs s.newBases ∨ visitedObj v x := by
  induction v with
  | nil =>
    intro s x
    simp [visitFold_nil, visitedObj]
  | cons p rest ih =>
    intro s x
    rcases p with ⟨ob, r⟩
    rw [visitFold_cons, visitedObj_cons]
    rw [ih (base_sync_step s ob r) x]
    rw [step_new_mem]
    tauto

theorem visitFold_old_subset (v : List (Nat × Nat)) :
    ∀ (s : BaseSt), ∀ b ∈ (visitFold v s).oldBases, b ∈ s.oldBases := by
  induction v with
  | nil => intro s b h; exact h
  | cons p rest ih =>
    intro s b h
    exact step_old_subset s p.1 p.2 b (ih _ b h)

/-- The record an object carries after a run of visits: flags accumulate as
the bitwise union of the initial flags and the per-visit grants; objects with
no record get one exactly when visited. -/
theorem visitFold_lookup (v : List (Nat × Nat)) :
    ∀ (s : BaseSt) (o : Nat), distinctSt s →
      (∀ b, lookupBase s o = some b →
        lookupBase (visitFold v s) o = some { b with flag := b.flag ||| grantsOr v o }) ∧
      (lookupBase s o = none → visitedObj v o →
        ∃ t, lookupBase (visitFold v s) o = some ⟨t, o, grantsOr v o⟩) ∧
      (lookupBase s o = none → ¬ visitedObj v o → lookupBase (visitFold v s) o = none) := by
  induction v with
  | nil =>
    intro s o _
    refine ⟨?_, ?_, ?_⟩
    · intro b hb
      rw [visitFold_nil, hb]
      congr 1
      cases b with
      | mk t ob f =>
        simp [grantsOr]
    · intro _ hv
      exact absurd hv (by simp [visitedObj])
    · intro h _
      rw [visitFold_nil, h]
  | cons p rest ih =>
    intro s o hD
    rcases p with ⟨ob, r⟩
    have hD2 := step_distinct s ob r hD
    have ih2 := ih (base_sync_step s ob r) o hD2
    by_cases hobo : o = ob
    · subst hobo
      refine ⟨?_, ?_, ?_⟩
      · intro b hb
        rw [visitFold_cons]
        have hhit := step_lookup_hit s o r hD
        rw [hb] at hhit
        have := ih2.1 _ hhit
        rw [this]
        congr 1
        simp only
        rw [base_grant_or, grantsOr, if_pos rfl, Nat.lor_assoc]
      · intro hnone hv
        rw [visitFold_cons]
        have hhit := step_lookup_hit s o r hD
        rw [hnone] at hhit
        have := ih2.1 _ hhit
        rw [this]
        refine ⟨s.baseTag, ?_⟩
        congr 1
        simp only
        rw [grantsOr, if_pos rfl]
      · intro _ hv
        exact absurd ((visitedObj_cons o r rest o).mpr (Or.inl rfl)) hv
    · have hmiss := step_lookup_miss s ob r o hobo
      have hgr : grantsOr ((ob, r) :: rest) o = grantsOr rest o := by
        rw [grantsOr, if_neg (fun h => hobo h.symm)]
        exact Nat.zero_or _
      refine ⟨?_, ?_, ?_⟩
      · intro b hb
        rw [visitFold_cons, hgr]
        exact ih2.1 b (by rw [hmiss, hb])
      · intro hnone hv
        rw [visitFold_cons, hgr]
        refine ih2.2.1 (by rw [hmiss, hnone]) ?_
        rcases (visitedObj_cons ob r rest o).mp hv with h | h
        · exact absurd h hobo
        · exact h
      · intro hnone hv
        rw [visitFold_cons]
        refine ih2.2.2 (by rw [hmiss, hnone]) ?_
        intro h
        exact hv ((visitedObj_cons ob r rest o).mpr (Or.inr h))

/-! ## State preservation through free and prune -/

theorem baseStOf_eq_of {x y : SyncSt} (h1 : x.oldBases = y.oldBases)
    (h2 : x.newBases = y.newBases) (h3 : x.baseTag = y.baseTag) :
    baseStOf x = baseStOf y := by
  unfold baseStOf
  rw [h1, h2, h3]

theorem baseStOf_object_base_sync (st : SyncSt) (ob r : Nat) :
    baseStOf (object_base_sync st ob r) = base_sync_step (baseStOf st) ob r := rfl

theorem object_base_sync_other (st : SyncSt) (ob r : Nat) :
    (object_base_sync st ob r).lcTag = st.lcTag ∧
    (object_base_sync st ob r).active = st.active ∧
    (object_base_sync st ob r).viewFirst = st.viewFirst :=
  ⟨rfl, rfl, rfl⟩

mutual

theorem layer_collection_free_fields (st : SyncSt) (lc : LC) :
    (layer_collection_free st lc).oldBases = st.oldBases ∧
    (layer_collection_free st lc).newBases = st.newBases ∧
    (layer_collection_free st lc).baseTag = st.baseTag ∧
    (layer_collection_free st lc).lcTag = st.lcTag ∧
    (layer_collection_free st lc).viewFirst = st.viewFirst := by
  cases lc with
  | node t c f ch =>
    rw [layer_collection_free]
    by_cases ha : st.active = some t
    · rw [if_pos ha]
      exact layer_collection_free_list_fields { st with active := st.viewFirst } ch
    · rw [if_neg ha]
      exact layer_collection_free_list_fields st ch

theorem layer_collection_free_list_fields (st : SyncSt) (l : List LC) :
    (layer_collection_free_list st l).oldBases = st.oldBases ∧
    (layer_collection_free_list st l).newBases = st.newBases ∧
    (layer_collection_free_list st l).baseTag = st.baseTag ∧
    (layer_collection_free_list st l).lcTag = st.lcTag ∧
    (layer_collection_free_list st l).viewFirst = st.viewFirst := by
  cases l with
  | nil =>
    rw [layer_collection_free_list]
    exact ⟨rfl, rfl, rfl, rfl, rfl⟩
  | cons c cs =>
    rw [layer_collection_free_list]
    have h1 := layer_collection_free_fields st c
    have h2 := layer_collection_free_list_fields (layer_collection_free st c) cs
    exact ⟨h2.1.trans h1.1, h2.2.1.trans h1.2.1, h2.2.2.1.trans h1.2.2.1,
      h2.2.2.2.1.trans h1.2.2.2.1, h2.2.2.2.2.trans h1.2.2.2.2⟩

end

theorem prune_pass_fields (s : List SCol) (isTop : Bool) :
    ∀ (l : List LC) (fk : Option Nat) (st : SyncSt),
      (prune_pass s isTop l fk st).2.oldBases = st.oldBases ∧
      (prune_pass s isTop l fk st).2.newBases = st.newBases ∧
      (prune_pass s isTop l fk st).2.baseTag = st.baseTag ∧
      (prune_pass s isTop l fk st).2.lcTag = st.lcTag := by
  intro l
  induction l with
  | nil =>
    intro fk st
    rw [prune_pass]
    exact ⟨rfl, rfl, rfl, rfl⟩
  | cons lc rest ih =>
    intro fk st
    rw [prune_pass]
    split
    · exact ih _ st
    · set st1 := if isTop then { st with viewFirst := fk <|> some lc.tag } else st with hst1
      set st2 := layer_collection_free st1 lc with hst2
      set st3 := if isTop then { st2 with viewFirst := fk <|> headTag rest } else st2 with hst3
      have e1 : st1.oldBases = st.oldBases ∧ st1.newBases = st.newBases ∧
          st1.baseTag = st.baseTag ∧ st1.lcTag = st.lcTag := by
        rw [hst1]; split <;> exact ⟨rfl, rfl, rfl, rfl⟩
      have e2 := layer_collection_free_fields st1 lc
      have e3 : st3.oldBases = st2.oldBases ∧ st3.newBases = st2.newBases ∧
          st3.baseTag = st2.baseTag ∧ st3.lcTag = st2.lcTag := by
        rw [hst3]; split <;> exact ⟨rfl, rfl, rfl, rfl⟩
      have h := ih fk st3
      exact ⟨h.1.trans (e3.1.trans (e2.1.trans e1.1)),
        h.2.1.trans (e3.2.1.trans (e2.2.1.trans e1.2.1)),
        h.2.2.1.trans (e3.2.2.1.trans (e2.2.2.1.trans e1.2.2.1)),
        h.2.2.2.trans (e3.2.2.2.trans (e2.2.2.2.1.trans e1.2.2.2))⟩

theorem lcFindRemove_some :
    ∀ (l : List LC) (cid : Nat) (lc : LC) (l2 : List LC),
      lcFindRemove l cid = some (lc, l2) → lc.collection = some cid := by
  intro l
  induction l with
  | nil => intro cid lc l2 h; simp [lcFindRemove] at h
  | cons c cs ih =>
    intro cid lc l2 h
    rw [lcFindRemove] at h
    split at h
    · rename_i hc
      simp only [Option.some.injEq, Prod.mk.injEq] at h
      rw [← h.1]
      exact hc
    · rcases hf : lcFindRemove cs cid with _ | ⟨p1, p2⟩
      · rw [hf] at h; exact absurd h (by simp)
      · rw [hf] at h
        simp only [Option.map_some', Option.some.injEq, Prod.mk.injEq] at h
        rw [← h.1]
        exact ih cid p1 p2 hf

theorem gobject_fold_baseSt (cr : Nat) :
    ∀ (cgo : List Nat) (st : SyncSt),
      baseStOf (cgo.foldl (fun s ob => object_base_sync s ob cr) st) =
        visitFold (cgo.map (fun o => (o, cr))) (baseStOf st) := by
  intro cgo
  induction cgo with
  | nil => intro st; rfl
  | cons ob rest ih =>
    intro st
    rw [List.foldl_cons, List.map_cons, visitFold_cons, ih,
      baseStOf_object_base_sync]

theorem sync_ok_of_reconcile_ok (s : List SCol) (h : ReconcileOk s) : SyncOk s := by
  intro l pe pr top st
  rw [layer_collection_sync]
  obtain ⟨h1, h2⟩ := h (prune_pass s top l none st).1 pe pr top (prune_pass s top l none st).2
  have hp := prune_pass_fields s top l none st
  constructor
  · exact h1
  · have hbp : baseStOf (prune_pass s top l none st).2 = baseStOf st :=
      baseStOf_eq_of hp.1 hp.2.1 hp.2.2.1
    have hb2 : baseStOf
        (if top then
          { (reconcile_pass s (prune_pass s top l none st).1 pe pr top
              (prune_pass s top l none st).2).2 with
            viewFirst := headTag (reconcile_pass s (prune_pass s top l none st).1 pe pr top
              (prune_pass s top l none st).2).1 }
        else (reconcile_pass s (prune_pass s top l none st).1 pe pr top
            (prune_pass s top l none st).2).2) =
        baseStOf (reconcile_pass s (prune_pass s top l none st).1 pe pr top
          (prune_pass s top l none st).2).2 := by
      split <;> rfl
    rw [hb2, h2, hbp]

/-! ## Unfolding equations for the sync recursion -/

theorem LC.tag_node (t : Nat) (c : Option Nat) (f : Nat) (ch : List LC) :
    (LC.node t c f ch).tag = t := rfl

theorem LC.collection_node (t : Nat) (c : Option Nat) (f : Nat) (ch : List LC) :
    (LC.node t c f ch).collection = c := rfl

theorem LC.flag_node (t : Nat) (c : Option Nat) (f : Nat) (ch : List LC) :
    (LC.node t c f ch).flag = f := rfl

theorem LC.children_node (t : Nat) (c : Option Nat) (f : Nat) (ch : List LC) :
    (LC.node t c f ch).children = ch := rfl

theorem reconcile_nil (l : List LC) (pe pr : Nat) (top : Bool) (st : SyncSt) :
    reconcile_pass [] l pe pr top st = ([], st) := by
  rw [reconcile_pass]

theorem reconcile_cons_found (ci cf : Nat) (cch : List SCol) (cgo : List Nat)
    (rest : List SCol) (l : List LC) (pe pr : Nat) (top : Bool) (st : SyncSt)
    (lc : LC) (l2 : List LC) (hfind : lcFindRemove l ci = some (lc, l2)) :
    reconcile_pass (SCol.node ci cf cch cgo :: rest) l pe pr top st =
      (LC.node lc.tag lc.collection lc.flag
          (layer_collection_sync cch lc.children lc.flag (childRestrictF pr cf) false
            (if top then { st with viewFirst := headTag l2 } else st)).1 ::
        (reconcile_pass rest l2 pe pr top
          (if lc.flag &&& LAYER_COLLECTION_EXCLUDE = 0 then
            cgo.foldl (fun s ob => object_base_sync s ob (childRestrictF pr cf))
              (layer_collection_sync cch lc.children lc.flag (childRestrictF pr cf) false
                (if top then { st with viewFirst := headTag l2 } else st)).2
          else
            (layer_collection_sync cch lc.children lc.flag (childRestrictF pr cf) false
              (if top then { st with viewFirst := headTag l2 } else st)).2)).1,
        (reconcile_pass rest l2 pe pr top
          (if lc.flag &&& LAYER_COLLECTION_EXCLUDE = 0 then
            cgo.foldl (fun s ob => object_base_sync s ob (childRestrictF pr cf))
              (layer_collection_sync cch lc.children lc.flag (childRestrictF pr cf) false
                (if top then { st with viewFirst := headTag l2 } else st)).2
          else
            (layer_collection_sync cch lc.children lc.flag (childRestrictF pr cf) false
              (if top then { st with viewFirst := headTag l2 } else st)).2)).2) := by
  rw [reconcile_pass]
  simp only [hfind]

theorem reconcile_cons_create (ci cf : Nat) (cch : List SCol) (cgo : List Nat)
    (rest : List SCol) (l : List LC) (pe pr : Nat) (top : Bool) (st : SyncSt)
    (hfind : lcFindRemove l ci = none) :
    reconcile_pass (SCol.node ci cf cch cgo :: rest) l pe pr top st =
      (LC.node st.lcTag (some ci) pe
          (layer_collection_sync cch [] pe (childRestrictF pr cf) false
            { st with lcTag := st.lcTag + 1 }).1 ::
        (reconcile_pass rest l pe pr top
          (if pe &&& LAYER_COLLECTION_EXCLUDE = 0 then
            cgo.foldl (fun s ob => object_base_sync s ob (childRestrictF pr cf))
              (layer_collection_sync cch [] pe (childRestrictF pr cf) false
                { st with lcTag := st.lcTag + 1 }).2
          else
            (layer_collection_sync cch [] pe (childRestrictF pr cf) false
              { st with lcTag := st.lcTag + 1 }).2)).1,
        (reconcile_pass rest l pe pr top
          (if pe &&& LAYER_COLLECTION_EXCLUDE = 0 then
            cgo.foldl (fun s ob => object_base_sync s ob (childRestrictF pr cf))
              (layer_collection_sync cch [] pe (childRestrictF pr cf) false
                { st with lcTag := st.lcTag + 1 }).2
          else
            (layer_collection_sync cch [] pe (childRestrictF pr cf) false
              { st with lcTag := st.lcTag + 1 }).2)).2) := by
  rw [reconcile_pass]
  simp only [hfind]

theorem mirrorsB_nil : mirrorsB [] [] = true := by
  rw [mirrorsB]

theorem mirrorsB_cons_intro (ci cf : Nat) (cch : List SCol) (cgo : List Nat)
    (ss : List SCol) (lc : LC) (ls : List LC)
    (h1 : lc.collection = some ci) (h2 : mirrorsB cch lc.children = true)
    (h3 : mirrorsB ss ls = true) :
    mirrorsB (SCol.node ci cf cch cgo :: ss) (lc :: ls) = true := by
  rw [mirrorsB]
  simp [h1, h2, h3]

theorem mirrorsB_cons_elim (ci cf : Nat) (cch : List SCol) (cgo : List Nat)
    (ss : List SCol) (lc : LC) (ls : List LC)
    (h : mirrorsB (SCol.node ci cf cch cgo :: ss) (lc :: ls) = true) :
    lc.collection = some ci ∧ mirrorsB cch lc.children = true ∧ mirrorsB ss ls = true := by
  rw [mirrorsB] at h
  simp only [Bool.and_eq_true, decide_eq_true_eq] at h
  exact ⟨h.1.1, h.1.2, h.2⟩

theorem visitsOf_nil_left (ls : List LC) (r : Nat) : visitsOf [] ls r = [] := by
  rw [visitsOf]

theorem visitsOf_nil_right (sc : SCol) (ss : List SCol) (r : Nat) :
    visitsOf (sc :: ss) [] r = [] := by
  cases sc with
  | node ci cf cch cgo => rw [visitsOf]

theorem visitsOf_cons (ci cf : Nat) (cch : List SCol) (cgo : List Nat)
    (ss : List SCol) (lc : LC) (ls : List LC) (r : Nat) :
    visitsOf (SCol.node ci cf cch cgo :: ss) (lc :: ls) r =
      (visitsOf cch lc.children (childRestrictF r cf) ++
        (if lc.flag &&& LAYER_COLLECTION_EXCLUDE = 0 then
          cgo.map (fun o => (o, childRestrictF r cf)) else [])) ++
        visitsOf ss ls r := by
  rw [visitsOf]

/-! ## The sync characterization -/

theorem reconcile_ok_nil : ReconcileOk ([] : List SCol) := by
  intro l pe pr top st
  rw [reconcile_nil]
  refine ⟨mirrorsB_nil, ?_⟩
  rw [visitsOf_nil_left, visitFold_nil]

theorem reconcile_ok (n : Nat) :
    ∀ (s : List SCol), sizeOf s ≤ n → ReconcileOk s := by
  induction n with
  | zero =>
    intro s hs
    cases s with
    | nil => exact reconcile_ok_nil
    | cons a l =>
      exfalso
      simp only [List.cons.sizeOf_spec] at hs
      omega
  | succ n ih =>
    intro s hs
    cases s with
    | nil => exact reconcile_ok_nil
    | cons c rest =>
      cases c with
      | node ci cf cch cgo =>
        have hsize : sizeOf cch ≤ n := by
          simp only [List.cons.sizeOf_spec, SCol.node.sizeOf_spec] at hs
          omega
        have hrest : sizeOf rest ≤ n := by
          simp only [List.cons.sizeOf_spec, SCol.node.sizeOf_spec] at hs
          omega
        have hsync := sync_ok_of_reconcile_ok cch (ih cch hsize)
        have ihrest := ih rest hrest
        intro l pe pr top st
        rcases hfind : lcFindRemove l ci with _ | ⟨lc, l2⟩
        · rw [reconcile_cons_create ci cf cch cgo rest l pe pr top st hfind]
          set st1 := ({ st with lcTag := st.lcTag + 1 } : SyncSt) with hst1
          set sub := layer_collection_sync cch [] pe (childRestrictF pr cf) false st1 with hsub
          set st2 := (if pe &&& LAYER_COLLECTION_EXCLUDE = 0 then
              cgo.foldl (fun s ob => object_base_sync s ob (childRestrictF pr cf)) sub.2
            else sub.2) with hst2
          set tl := reconcile_pass rest l pe pr top st2 with htl
          have hsubf := hsync [] pe (childRestrictF pr cf) false st1
          have htlf := ihrest l pe pr top st2
          constructor
          · exact mirrorsB_cons_intro ci cf cch cgo rest _ tl.1 rfl hsubf.1 htlf.1
          · rw [visitsOf_cons, visitFold_append, visitFold_append]
            have hbst1 : baseStOf st1 = baseStOf st := rfl
            have hbsub : baseStOf sub.2 =
                visitFold (visitsOf cch (LC.node st.lcTag (some ci) pe sub.1).children
                  (childRestrictF pr cf)) (baseStOf st) := by
              rw [LC.children_node, hsubf.2, hbst1]
            have hbst2 : baseStOf st2 =
                visitFold (if (LC.node st.lcTag (some ci) pe sub.1).flag &&&
                    LAYER_COLLECTION_EXCLUDE = 0 then
                  cgo.map (fun o => (o, childRestrictF pr cf)) else [])
                  (baseStOf sub.2) := by
              rw [hst2, LC.flag_node]
              by_cases hex : pe &&& LAYER_COLLECTION_EXCLUDE = 0
              · rw [if_pos hex, if_pos hex, gobject_fold_baseSt]
              · rw [if_neg hex, if_neg hex, visitFold_nil]
            rw [htlf.2, hbst2, hbsub]
        · rw [reconcile_cons_found ci cf cch cgo rest l pe pr top st lc l2 hfind]
          have hcoll := lcFindRemove_some l ci lc l2 hfind
          set st1 := (if top then { st with viewFirst := headTag l2 } else st) with hst1
          set sub := layer_collection_sync cch lc.children lc.flag
            (childRestrictF pr cf) false st1 with hsub
          set st2 := (if lc.flag &&& LAYER_COLLECTION_EXCLUDE = 0 then
              cgo.foldl (fun s ob => object_base_sync s ob (childRestrictF pr cf)) sub.2
            else sub.2) with hst2
          set tl := reconcile_pass rest l2 pe pr top st2 with htl
          have hsubf := hsync lc.children lc.flag (childRestrictF pr cf) false st1
          have htlf := ihrest l2 pe pr top st2
          constructor
          · exact mirrorsB_cons_intro ci cf cch cgo rest _ tl.1 hcoll hsubf.1 htlf.1
          · rw [visitsOf_cons, visitFold_append, visitFold_append]
            have hbst1 : baseStOf st1 = baseStOf st := by
              rw [hst1]; split <;> rfl
            have hbsub : baseStOf sub.2 =
                visitFold (visitsOf cch (LC.node lc.tag lc.collection lc.flag sub.1).children
                  (childRestrictF pr cf)) (baseStOf st) := by
              rw [LC.children_node, hsubf.2, hbst1]
            have hbst2 : baseStOf st2 =
                visitFold (if (LC.node lc.tag lc.collection lc.flag sub.1).flag &&&
                    LAYER_COLLECTION_EXCLUDE = 0 then
                  cgo.map (fun o => (o, childRestrictF pr cf)) else [])
                  (baseStOf sub.2) := by
              rw [hst2, LC.flag_node]
              by_cases hex : lc.flag &&& LAYER_COLLECTION_EXCLUDE = 0
              · rw [if_pos hex, if_pos hex, gobject_fold_baseSt]
              · rw [if_neg hex, if_neg hex, visitFold_nil]
            rw [htlf.2, hbst2, hbsub]

/-- The sync characterization: the rebuilt layer tree mirrors the source
children, and the base lists evolve exactly by the object-pass fold over the
visit sequence of the output tree. -/
theorem sync_ok (s : List SCol) : SyncOk s :=
  sync_ok_of_reconcile_ok s (reconcile_ok (sizeOf s) s le_rfl)

/-! ## Top-level corollaries of the characterization -/

theorem baseObjs_clearSyncFlags (l : List Base) :
    baseObjs (clearSyncFlags l) = baseObjs l := by
  unfold clearSyncFlags baseObjs
  rw [List.map_map]
  rfl

theorem clearSyncFlags_record (l : List Base) (o : Nat) (b : Base)
    (h : recordOf (clearSyncFlags l) o = some b) :
    b.flag &&& BASE_SYNC_MASK = 0 := by
  obtain ⟨_, hmem⟩ := recordOf_eq_some_object _ o b h
  rw [clearSyncFlags] at hmem
  rcases List.mem_map.mp hmem with ⟨c, _, hc⟩
  rw [← hc]
  exact clearMask_and_mask c.flag BASE_SYNC_MASK

theorem filter_object_single (o : Nat) :
    ∀ (l : List Base), (baseObjs l).Nodup → o ∈ baseObjs l →
      (l.filter (fun b => b.object = o)).length = 1 := by
  intro l
  induction l with
  | nil => intro _ hmem; simp [baseObjs] at hmem
  | cons b rest ih =>
    intro hnd hmem
    simp only [baseObjs, List.map_cons, List.nodup_cons] at hnd
    simp only [baseObjs, List.map_cons, List.mem_cons] at hmem
    by_cases hb : b.object = o
    · have hno : o ∉ baseObjs rest := by rw [← hb]; exact hnd.1
      have hf : rest.filter (fun x => decide (x.object = o)) = [] := by
        rw [List.filter_eq_nil_iff]
        intro x hx
        simp only [decide_eq_true_eq]
        intro hxo
        exact hno (by rw [← hxo]; exact List.mem_map_of_mem Base.object hx)
      simp [List.filter_cons, hb, hf]
    · have hmem2 : o ∈ baseObjs rest := by
        rcases hmem with h | h
        · exact absurd h.symm hb
        · exact h
      rw [List.filter_cons_of_neg]
      · exact ih hnd.2 hmem2
      · simp [hb]

/-- A successful top-level sync leaves a layer tree mirroring the master
source node and a base list equal to the visit-fold of the cleared bases. -/
theorem BKE_sync_some_char (parentOf : Nat → Option Nat) (fuel : Nat) (m : SCol)
    (vl vl' : ViewLayer)
    (h : BKE_layer_collection_sync parentOf fuel (some m) vl = some vl') :
    mirrorsB [m] vl'.layer_collections = true ∧
    vl'.object_bases =
      (visitFold (visitsOf [m] vl'.layer_collections 0)
        ⟨clearSyncFlags vl.object_bases, [], vl.baseTag⟩).newBases := by
  have hchar := sync_ok [m] vl.layer_collections 0 0 true
    { oldBases := clearSyncFlags vl.object_bases
      newBases := []
      baseTag := vl.baseTag
      lcTag := vl.lcTag
      active := vl.active_collection
      viewFirst := headTag vl.layer_collections }
  rw [BKE_layer_collection_sync] at h
  simp only [] at h
  set res := layer_collection_sync [m] vl.layer_collections 0 0 true
    { oldBases := clearSyncFlags vl.object_bases
      newBases := []
      baseTag := vl.baseTag
      lcTag := vl.lcTag
      active := vl.active_collection
      viewFirst := headTag vl.layer_collections } with hres
  obtain ⟨hm, hb⟩ := hchar
  have hgoal : ∀ w : ViewLayer, w.layer_collections = res.1 →
      w.object_bases = res.2.newBases →
      mirrorsB [m] w.layer_collections = true ∧
      w.object_bases =
        (visitFold (visitsOf [m] w.layer_collections 0)
          ⟨clearSyncFlags vl.object_bases, [], vl.baseTag⟩).newBases := by
    intro w hw1 hw2
    refine ⟨by rw [hw1]; exact hm, ?_⟩
    rw [hw1, hw2]
    exact congrArg BaseSt.newBases hb
  rcases hact : res.2.active with _ | t
  · simp only [hact] at h
    injection h with h2
    exact hgoal vl' (by rw [← h2]) (by rw [← h2])
  · simp only [hact] at h
    rcases hf : findLcByTagList res.1 t with _ | lc
    · simp only [hf] at h
      injection h with h2
      exact hgoal vl' (by rw [← h2]) (by rw [← h2])
    · simp only [hf] at h
      by_cases hex : lc.flag &&& LAYER_COLLECTION_EXCLUDE = 0
      · rw [if_pos hex] at h
        injection h with h2
        exact hgoal vl' (by rw [← h2]) (by rw [← h2])
      · rw [if_neg hex] at h
        rcases hw : activate_parent_walk parentOf res.1 fuel lc with _ | na
        · simp only [hw] at h
          exact absurd h (by simp)
        · simp only [hw] at h
          injection h with h2
          exact hgoal vl' (by rw [← h2]) (by rw [← h2])

theorem mirrorsB_nil_cons (lc : LC) (ls : List LC) :
    mirrorsB [] (lc :: ls) = false := by
  rw [mirrorsB]
  · intro h1 h2
    exact absurd h2 (by simp)
  · intro a b c d e f g h1 h2
    exact absurd h1 (by simp)

theorem mirrorsB_cons_nil (ci cf : Nat) (cch : List SCol) (cgo : List Nat)
    (ss : List SCol) :
    mirrorsB (SCol.node ci cf cch cgo :: ss) [] = false := by
  rw [mirrorsB]
  · intro h1 h2
    exact absurd h1 (by simp)
  · intro a b c d e f g h1 h2
    exact absurd h2 (by simp)

theorem sameShape_nil_cons (lc : LC) (ls : List LC) :
    sameShape [] (lc :: ls) = false := by
  rw [sameShape]
  · intro h1 h2
    exact absurd h2 (by simp)
  · intro a b c d e f g h1 h2
    exact absurd h1 (by simp)

theorem sameShape_cons_nil (ci cf : Nat) (cch : List SCol) (cgo : List Nat)
    (ss : List SCol) :
    sameShape (SCol.node ci cf cch cgo :: ss) [] = false := by
  rw [sameShape]
  · intro h1 h2
    exact absurd h1 (by simp)
  · intro a b c d e f g h1 h2
    exact absurd h2 (by simp)

theorem sameShape_of_mirrorsB (n : Nat) :
    ∀ (s : List SCol) (l : List LC), sizeOf s ≤ n →
      mirrorsB s l = true → sameShape s l = true := by
  induction n with
  | zero =>
    intro s l hs h
    cases s with
    | nil =>
      cases l with
      | nil => rw [sameShape]
      | cons lc ls => rw [mirrorsB_nil_cons] at h; exact absurd h (by simp)
    | cons c ss =>
      exfalso
      simp only [List.cons.sizeOf_spec] at hs
      omega
  | succ n ih =>
    intro s l hs h
    cases s with
    | nil =>
      cases l with
      | nil => rw [sameShape]
      | cons lc ls => rw [mirrorsB_nil_cons] at h; exact absurd h (by simp)
    | cons c ss =>
      cases c with
      | node ci cf cch cgo =>
        cases l with
        | nil => rw [mirrorsB_cons_nil] at h; exact absurd h (by simp)
        | cons lc ls =>
          obtain ⟨_, h2, h3⟩ := mirrorsB_cons_elim ci cf cch cgo ss lc ls h
          have hsize : sizeOf cch ≤ n := by
            simp only [List.cons.sizeOf_spec, SCol.node.sizeOf_spec] at hs
            omega
          have hrest : sizeOf ss ≤ n := by
            simp only [List.cons.sizeOf_spec, SCol.node.sizeOf_spec] at hs
            omega
          rw [sameShape]
          simp only [Bool.and_eq_true]
          exact ⟨ih cch lc.children hsize h2, ih ss ls hrest h3⟩

theorem sameShape_length :
    ∀ (s : List SCol) (l : List LC), sameShape s l = true → l.length = s.length := by
  intro s
  induction s with
  | nil =>
    intro l h
    cases l with
    | nil => rfl
    | cons lc ls => rw [sameShape_nil_cons] at h; exact absurd h (by simp)
  | cons c ss ih =>
    intro l h
    cases c with
    | node ci cf cch cgo =>
      cases l with
      | nil => rw [sameShape_cons_nil] at h; exact absurd h (by simp)
      | cons lc ls =>
        rw [sameShape] at h
        simp only [Bool.and_eq_true] at h
        simp only [List.length_cons, ih ls h.2]

/-- C3: after each per-level call of the recursive sync, the rebuilt layer
child list has exactly as many nodes as the source child list, at that level
(explicit length equality) and at every level below (`sameShape`): the
end-of-function count assertion of `layer_collection_sync` never fails. -/
theorem C3_sync_cardinality (s : List SCol) (l : List LC) (pe pr : Nat)
    (top : Bool) (st : SyncSt) :
    sameShape s (layer_collection_sync s l pe pr top st).1 = true ∧
    (layer_collection_sync s l pe pr top st).1.length = s.length := by
  have hm := (sync_ok s l pe pr top st).1
  have hs := sameShape_of_mirrorsB (sizeOf s) s _ le_rfl hm
  exact ⟨hs, sameShape_length s _ hs⟩

theorem lookupBase_empty_new (old : List Base) (k o : Nat) :
    lookupBase ⟨old, [], k⟩ o = recordOf old o := by
  rw [lookupBase_eq]
  show (recordOf [] o).orElse (fun _ => recordOf old o) = recordOf old o
  rw [recordOf_nil]
  rcases recordOf old o with _ | b <;> rfl

theorem lookupBase_of_record_new (s : BaseSt) (o : Nat) (b : Base)
    (h : recordOf s.newBases o = some b) : lookupBase s o = some b := by
  rw [lookupBase_eq, h]
  rfl

theorem flag_mask_of_cleared {c g : Nat} (hc : c &&& BASE_SYNC_MASK = 0)
    (hg : g &&& BASE_SYNC_MASK = g) : (c ||| g) &&& BASE_SYNC_MASK = g := by
  rw [land_lor_distrib, hc, hg, Nat.zero_or]

/-- C1: after a successful sync of a master source tree, every object visited
along at least one non-excluded path owns exactly one base in the rebuilt base
list, and that base's four sync-mask flag bits (VISIBLED, SELECTABLED,
VISIBLE_VIEWPORT, VISIBLE_RENDER) equal the bitwise OR, over all visiting
paths, of the bits each path alone grants. -/
theorem C1_single_base_per_object (parentOf : Nat → Option Nat) (fuel : Nat)
    (m : SCol) (vl vl' : ViewLayer)
    (hnd : (baseObjs vl.object_bases).Nodup)
    (h : BKE_layer_collection_sync parentOf fuel (some m) vl = some vl')
    (o : Nat)
    (hv : visitedObj (visitsOf [m] vl'.layer_collections 0) o) :
    (vl'.object_bases.filter (fun b => b.object = o)).length = 1 ∧
    ∀ b ∈ vl'.object_bases, b.object = o →
      b.flag &&& BASE_SYNC_MASK = grantsOr (visitsOf [m] vl'.layer_collections 0) o := by
  obtain ⟨hm, hbase⟩ := BKE_sync_some_char parentOf fuel m vl vl' h
  set B0 : BaseSt := ⟨clearSyncFlags vl.object_bases, [], vl.baseTag⟩ with hB0
  set V := visitsOf [m] vl'.layer_collections 0 with hV
  have hD0 : distinctSt B0 := by
    unfold distinctSt
    show (baseObjs (clearSyncFlags vl.object_bases) ++ baseObjs []).Nodup
    rw [baseObjs_clearSyncFlags]
    simp only [baseObjs, List.map_nil, List.append_nil]
    exact hnd
  have hndnew : (baseObjs (visitFold V B0).newBases).Nodup := by
    have hD := visitFold_distinct V B0 hD0
    unfold distinctSt at hD
    exact hD.of_append_right
  have hmem : o ∈ baseObjs (visitFold V B0).newBases := by
    rw [visitFold_new_mem]
    exact Or.inr hv
  constructor
  · rw [hbase]
    exact filter_object_single o _ hndnew hmem
  · intro b hb hbo
    have hrec : recordOf (visitFold V B0).newBases o = some b := by
      refine recordOf_unique _ o b hndnew ?_ hbo
      rw [← hbase]
      exact hb
    have hlb : lookupBase (visitFold V B0) o = some b :=
      lookupBase_of_record_new _ o b hrec
    have hchar := visitFold_lookup V B0 o hD0
    have hl0 : lookupBase B0 o = recordOf (clearSyncFlags vl.object_bases) o :=
      lookupBase_empty_new _ _ o
    rcases hc0 : recordOf (clearSyncFlags vl.object_bases) o with _ | c
    · have hfin := hchar.2.1 (by rw [hl0, hc0]) hv
      rcases hfin with ⟨t, hfin⟩
      rw [hlb] at hfin
      injection hfin with he
      rw [he]
      exact grantsOr_mask V o
    · have hfin := hchar.1 c (by rw [hl0, hc0])
      rw [hlb] at hfin
      injection hfin with he
      have hcm : c.flag &&& BASE_SYNC_MASK = 0 :=
        clearSyncFlags_record vl.object_bases o c hc0
      rw [he]
      show (c.flag ||| grantsOr V o) &&& BASE_SYNC_MASK = grantsOr V o
      exact flag_mask_of_cleared hcm (grantsOr_mask V o)

theorem C1_single_base_per_object_witness :
    (baseObjs vlW.object_bases).Nodup ∧
    BKE_layer_collection_sync (fun _ => none) 1 (some mW) vlW = some vl1W ∧
    visitedObj (visitsOf [mW] vl1W.layer_collections 0) 7 ∧
    ((vl1W.object_bases.filter (fun b => b.object = 7)).length = 1 ∧
      ∀ b ∈ vl1W.object_bases, b.object = 7 →
        b.flag &&& BASE_SYNC_MASK = grantsOr (visitsOf [mW] vl1W.layer_collections 0) 7) := by
  have h1 : (baseObjs vlW.object_bases).Nodup := by decide
  have h2 : BKE_layer_collection_sync (fun _ => none) 1 (some mW) vlW = some vl1W := by
    simp [BKE_layer_collection_sync, layer_collection_sync, reconcile_pass, prune_pass,
      lcFindRemove, object_base_sync, splitBase, base_grant, childRestrictF, clearSyncFlags,
      headTag, mW, vlW, vl1W, COLLECTION_IS_MASTER, COLLECTION_RESTRICT_VIEW,
      COLLECTION_RESTRICT_SELECT, COLLECTION_RESTRICT_RENDER, BASE_SELECTED, BASE_VISIBLED,
      BASE_SELECTABLED, BASE_VISIBLE_VIEWPORT, BASE_VISIBLE_RENDER, LAYER_COLLECTION_EXCLUDE,
      SCol.cid, SCol.flag, SCol.children, SCol.gobject, LC.tag, LC.collection, LC.flag,
      LC.children, sceneHas, findLcByTagList, findLcByTag, BASE_SYNC_MASK, base_sync_step,
      baseStOf, layer_collection_free, layer_collection_free_list, activate_parent_walk,
      clearMask]
    decide
  have h3 : visitedObj (visitsOf [mW] vl1W.layer_collections 0) 7 := by
    have hviz : visitsOf [mW] vl1W.layer_collections 0 = [(7, 2), (7, 0)] := by
      simp [visitsOf, mW, vl1W, childRestrictF, LC.children, LC.flag,
        COLLECTION_IS_MASTER, COLLECTION_RESTRICT_VIEW, LAYER_COLLECTION_EXCLUDE]
    rw [hviz]
    exact ⟨2, by decide⟩
  exact ⟨h1, h2, h3,
    C1_single_base_per_object (fun _ => none) 1 mW vlW vl1W h1 h2 7 h3⟩

/-- C4: exclusion is local.  An EXCLUDE-flagged layer node contributes no
visit for its directly contained objects while its child subtrees are visited
normally; after a successful sync an object with no granting path has no base,
and an object with one (for instance through a non-excluded sibling of an
excluded node) does. -/
theorem C4_exclusion (parentOf : Nat → Option Nat) (fuel : Nat) (m : SCol)
    (vl vl' : ViewLayer)
    (h : BKE_layer_collection_sync parentOf fuel (some m) vl = some vl') :
    (∀ (ci cf : Nat) (cch : List SCol) (cgo : List Nat) (ss : List SCol)
        (lc : LC) (ls : List LC) (r : Nat),
      lc.flag &&& LAYER_COLLECTION_EXCLUDE ≠ 0 →
      visitsOf (SCol.node ci cf cch cgo :: ss) (lc :: ls) r =
        visitsOf cch lc.children (childRestrictF r cf) ++ visitsOf ss ls r) ∧
    (∀ o, ¬ visitedObj (visitsOf [m] vl'.layer_collections 0) o →
      o ∉ baseObjs vl'.object_bases) ∧
    (∀ o, visitedObj (visitsOf [m] vl'.layer_collections 0) o →
      o ∈ baseObjs vl'.object_bases) := by
  obtain ⟨hm, hbase⟩ := BKE_sync_some_char parentOf fuel m vl vl' h
  refine ⟨?_, ?_, ?_⟩
  · intro ci cf cch cgo ss lc ls r hex
    rw [visitsOf_cons, if_neg hex, List.append_nil]
  · intro o hnv hmem
    apply hnv
    rw [hbase] at hmem
    rcases (visitFold_new_mem _ _ o).mp hmem with hin | hv
    · exact absurd hin (by simp [baseObjs])
    · exact hv
  · intro o hv
    rw [hbase, visitFold_new_mem]
    exact Or.inr hv

theorem C4_exclusion_witness :
    BKE_layer_collection_sync (fun _ => none) 1 (some mE) vlE = some vlE' ∧
    (¬ visitedObj (visitsOf [mE] vlE'.layer_collections 0) 7 ∧
      7 ∉ baseObjs vlE'.object_bases) ∧
    (visitedObj (visitsOf [mE] vlE'.layer_collections 0) 9 ∧
      9 ∈ baseObjs vlE'.object_bases) := by
  have h2 : BKE_layer_collection_sync (fun _ => none) 1 (some mE) vlE = some vlE' := by
    simp [BKE_layer_collection_sync, layer_collection_sync, reconcile_pass, prune_pass,
      lcFindRemove, object_base_sync, splitBase, base_grant, childRestrictF, clearSyncFlags,
      headTag, mE, vlE, vlE', COLLECTION_IS_MASTER, COLLECTION_RESTRICT_VIEW,
      COLLECTION_RESTRICT_SELECT, COLLECTION_RESTRICT_RENDER, BASE_SELECTED, BASE_VISIBLED,
      BASE_SELECTABLED, BASE_VISIBLE_VIEWPORT, BASE_VISIBLE_RENDER, LAYER_COLLECTION_EXCLUDE,
      SCol.cid, SCol.flag, SCol.children, SCol.gobject, LC.tag, LC.collection, LC.flag,
      LC.children, sceneHas, findLcByTagList, findLcByTag, BASE_SYNC_MASK, base_sync_step,
      baseStOf, layer_collection_free, layer_collection_free_list, activate_parent_walk,
      clearMask]
  have hviz : visitsOf [mE] vlE'.layer_collections 0 = [(9, 0)] := by
    simp [visitsOf, mE, vlE', childRestrictF, LC.children, LC.flag,
      COLLECTION_IS_MASTER, LAYER_COLLECTION_EXCLUDE]
  have hc := C4_exclusion (fun _ => none) 1 mE vlE vlE' h2
  refine ⟨h2, ⟨?_, ?_⟩, ⟨?_, ?_⟩⟩
  · rw [hviz]
    decide
  · exact hc.2.1 7 (by rw [hviz]; decide)
  · rw [hviz]
    exact ⟨0, by decide⟩
  · exact hc.2.2 9 (by rw [hviz]; exact ⟨0, by decide⟩)

/-! ## Restriction accumulation lemmas -/

theorem land_assoc2 (a b c : Nat) : (a &&& b) &&& c = a &&& (b &&& c) := by
  apply Nat.eq_of_testBit_eq
  intro i
  simp only [Nat.testBit_land]
  cases a.testBit i <;> cases b.testBit i <;> cases c.testBit i <;> rfl

theorem land_sub_trans {a b c : Nat} (h1 : a &&& b = a) (h2 : b &&& c = b) :
    a &&& c = a := by
  calc a &&& c = (a &&& b) &&& c := by rw [h1]
    _ = a &&& (b &&& c) := land_assoc2 a b c
    _ = a &&& b := by rw [h2]
    _ = a := h1

theorem land_lor_absorb (r c : Nat) : r &&& (r ||| c) = r := by
  apply Nat.eq_of_testBit_eq
  intro i
  rw [Nat.testBit_land, Nat.testBit_lor]
  cases r.testBit i <;> cases c.testBit i <;> rfl

theorem land_lor_absorb_right (c r : Nat) : c &&& (r ||| c) = c := by
  apply Nat.eq_of_testBit_eq
  intro i
  rw [Nat.testBit_land, Nat.testBit_lor]
  cases r.testBit i <;> cases c.testBit i <;> rfl

theorem land_self_restrict (r cf : Nat) : r &&& childRestrictF r cf = r := by
  rw [childRestrictF]
  split
  · exact land_lor_absorb r cf
  · apply Nat.eq_of_testBit_eq
    intro i
    rw [Nat.testBit_land]
    cases r.testBit i <;> rfl

theorem land_ne_zero_mono {a b m : Nat} (hab : a &&& b = a) (h : a &&& m ≠ 0) :
    b &&& m ≠ 0 := by
  intro hbm
  apply h
  calc a &&& m = (a &&& b) &&& m := by rw [hab]
    _ = a &&& (b &&& m) := land_assoc2 a b m
    _ = a &&& 0 := by rw [hbm]
    _ = 0 := Nat.and_zero a

/-- Every visit below a subtree entered with accumulated restriction `r`
keeps all of `r`'s bits in its own accumulated restriction word. -/
theorem visitsOf_restrict_mono (n : Nat) :
    ∀ (s : List SCol) (l : List LC) (r : Nat) (p : Nat × Nat),
      sizeOf s ≤ n → p ∈ visitsOf s l r → r &&& p.2 = r := by
  induction n with
  | zero =>
    intro s l r p hs hp
    cases s with
    | nil => rw [visitsOf_nil_left] at hp; exact absurd hp (by simp)
    | cons c ss =>
      exfalso
      simp only [List.cons.sizeOf_spec] at hs
      omega
  | succ n ih =>
    intro s l r p hs hp
    cases s with
    | nil => rw [visitsOf_nil_left] at hp; exact absurd hp (by simp)
    | cons c ss =>
      cases c with
      | node ci cf cch cgo =>
        cases l with
        | nil => rw [visitsOf_nil_right] at hp; exact absurd hp (by simp)
        | cons lc ls =>
          have hsize : sizeOf cch ≤ n := by
            simp only [List.cons.sizeOf_spec, SCol.node.sizeOf_spec] at hs
            omega
          have hrest : sizeOf ss ≤ n := by
            simp only [List.cons.sizeOf_spec, SCol.node.sizeOf_spec] at hs
            omega
          rw [visitsOf_cons] at hp
          rcases List.mem_append.mp hp with hp1 | hp2
          · rcases List.mem_append.mp hp1 with hpc | hpo
            · have := ih cch lc.children (childRestrictF r cf) p hsize hpc
              exact land_sub_trans (land_self_restrict r cf) this
            · by_cases hex : lc.flag &&& LAYER_COLLECTION_EXCLUDE = 0
              · rw [if_pos hex] at hpo
                rcases List.mem_map.mp hpo with ⟨o, _, ho⟩
                rw [← ho]
                exact land_self_restrict r cf
              · rw [if_neg hex] at hpo
                exact absurd hpo (by simp)
          · exact ih ss ls r p hrest hp2

theorem base_grant_view_restricted {rv : Nat}
    (h : rv &&& COLLECTION_RESTRICT_VIEW ≠ 0) :
    base_grant rv 0 &&& (BASE_VISIBLED ||| BASE_SELECTABLED ||| BASE_VISIBLE_VIEWPORT) = 0 := by
  rw [base_grant]
  simp only [if_neg h]
  by_cases hr : rv &&& COLLECTION_RESTRICT_RENDER = 0
  · rw [if_pos hr]
    decide
  · rw [if_neg hr]
    decide

theorem base_grant_select_restricted {rv : Nat}
    (h : rv &&& COLLECTION_RESTRICT_SELECT ≠ 0) :
    base_grant rv 0 &&& BASE_SELECTABLED = 0 := by
  rw [base_grant]
  by_cases hv : rv &&& COLLECTION_RESTRICT_VIEW = 0
  · simp only [if_pos hv, if_neg h]
    by_cases hr : rv &&& COLLECTION_RESTRICT_RENDER = 0
    · rw [if_pos hr]; decide
    · rw [if_neg hr]; decide
  · simp only [if_neg hv]
    by_cases hr : rv &&& COLLECTION_RESTRICT_RENDER = 0
    · rw [if_pos hr]; decide
    · rw [if_neg hr]; decide

theorem base_grant_render_restricted {rv : Nat}
    (h : rv &&& COLLECTION_RESTRICT_RENDER ≠ 0) :
    base_grant rv 0 &&& BASE_VISIBLE_RENDER = 0 := by
  rw [base_grant]
  simp only [if_neg h]
  by_cases hv : rv &&& COLLECTION_RESTRICT_VIEW = 0
  · simp only [if_pos hv]
    by_cases hs : rv &&& COLLECTION_RESTRICT_SELECT = 0
    · rw [if_pos hs]; decide
    · rw [if_neg hs]; decide
  · simp only [if_neg hv]
    decide

/-- C5: restriction flags accumulate as a bitwise union down the tree.  A
non-master collection's flag word joins the inherited word; its bits then
reach every visit at every depth below, and a visit restricted in view,
select or render grants none of the correspondingly withheld base bits.  The
master collection is the sole exception: its own flag word joins nothing. -/
theorem C5_restriction_inheritance (cf r : Nat) (s : List SCol) (l : List LC)
    (p : Nat × Nat) (hmaster : cf &&& COLLECTION_IS_MASTER = 0)
    (hmem : p ∈ visitsOf s l (childRestrictF r cf)) :
    childRestrictF r cf = r ||| cf ∧
    cf &&& p.2 = cf ∧
    (∀ r2 : Nat, childRestrictF r2 (COLLECTION_IS_MASTER ||| cf) = r2) ∧
    (cf &&& COLLECTION_RESTRICT_VIEW ≠ 0 →
      base_grant p.2 0 &&&
        (BASE_VISIBLED ||| BASE_SELECTABLED ||| BASE_VISIBLE_VIEWPORT) = 0) ∧
    (cf &&& COLLECTION_RESTRICT_SELECT ≠ 0 → base_grant p.2 0 &&& BASE_SELECTABLED = 0) ∧
    (cf &&& COLLECTION_RESTRICT_RENDER ≠ 0 → base_grant p.2 0 &&& BASE_VISIBLE_RENDER = 0) := by
  have hunion : childRestrictF r cf = r ||| cf := by
    rw [childRestrictF, if_pos hmaster]
  have hmono := visitsOf_restrict_mono (sizeOf s) s l (childRestrictF r cf) p le_rfl hmem
  have hcf : cf &&& p.2 = cf := by
    refine land_sub_trans ?_ hmono
    rw [hunion]
    exact land_lor_absorb_right cf r
  refine ⟨hunion, hcf, ?_, ?_, ?_, ?_⟩
  · intro r2
    rw [childRestrictF]
    have hne : (COLLECTION_IS_MASTER ||| cf) &&& COLLECTION_IS_MASTER ≠ 0 := by
      have h1 : COLLECTION_IS_MASTER &&& COLLECTION_IS_MASTER ≠ 0 := by decide
      exact land_ne_zero_mono (land_lor_absorb COLLECTION_IS_MASTER cf) h1
    rw [if_neg hne]
  · intro hbit
    exact base_grant_view_restricted (land_ne_zero_mono hcf hbit)
  · intro hbit
    exact base_grant_select_restricted (land_ne_zero_mono hcf hbit)
  · intro hbit
    exact base_grant_render_restricted (land_ne_zero_mono hcf hbit)

theorem C5_restriction_inheritance_witness :
    COLLECTION_RESTRICT_VIEW &&& COLLECTION_IS_MASTER = 0 ∧
    ((7, 2) : Nat × Nat) ∈
      visitsOf [SCol.node 1 0 [] [7]] [LC.node 1 (some 1) 0 []]
        (childRestrictF 0 COLLECTION_RESTRICT_VIEW) ∧
    (childRestrictF 0 COLLECTION_RESTRICT_VIEW = 0 ||| COLLECTION_RESTRICT_VIEW ∧
      COLLECTION_RESTRICT_VIEW &&& (2 : Nat) = COLLECTION_RESTRICT_VIEW ∧
      (∀ r2 : Nat,
        childRestrictF r2 (COLLECTION_IS_MASTER ||| COLLECTION_RESTRICT_VIEW) = r2) ∧
      (COLLECTION_RESTRICT_VIEW &&& COLLECTION_RESTRICT_VIEW ≠ 0 →
        base_grant 2 0 &&&
          (BASE_VISIBLED ||| BASE_SELECTABLED ||| BASE_VISIBLE_VIEWPORT) = 0) ∧
      (COLLECTION_RESTRICT_VIEW &&& COLLECTION_RESTRICT_SELECT ≠ 0 →
        base_grant 2 0 &&& BASE_SELECTABLED = 0) ∧
      (COLLECTION_RESTRICT_VIEW &&& COLLECTION_RESTRICT_RENDER ≠ 0 →
        base_grant 2 0 &&& BASE_VISIBLE_RENDER = 0)) := by
  have h1 : COLLECTION_RESTRICT_VIEW &&& COLLECTION_IS_MASTER = 0 := by decide
  have h2 : ((7, 2) : Nat × Nat) ∈
      visitsOf [SCol.node 1 0 [] [7]] [LC.node 1 (some 1) 0 []]
        (childRestrictF 0 COLLECTION_RESTRICT_VIEW) := by
    have hviz : visitsOf [SCol.node 1 0 [] [7]] [LC.node 1 (some 1) 0 []]
        (childRestrictF 0 COLLECTION_RESTRICT_VIEW) = [(7, 2)] := by
      simp [visitsOf, childRestrictF, LC.children, LC.flag, COLLECTION_IS_MASTER,
        COLLECTION_RESTRICT_VIEW, LAYER_COLLECTION_EXCLUDE]
    rw [hviz]
    exact List.mem_singleton.mpr rfl
  exact ⟨h1, h2, C5_restriction_inheritance COLLECTION_RESTRICT_VIEW 0
    [SCol.node 1 0 [] [7]] [LC.node 1 (some 1) 0 []] (7, 2) h1 h2⟩

/-! ## Record and clearing lemmas for the idempotence argument -/

theorem clearMask_eq_zero {x m : Nat} (h : x &&& m = x) : clearMask x m = 0 := by
  apply Nat.eq_of_testBit_eq
  intro i
  rw [testBit_clearMask, Nat.zero_testBit]
  have h2 := congrArg (fun y => Nat.testBit y i) h
  simp only [Nat.testBit_land] at h2
  cases hx : x.testBit i <;> cases hm : m.testBit i <;> simp_all

theorem clearSyncFlags_flag_zero (l : List Base) :
    ∀ b ∈ clearSyncFlags l, b.flag &&& BASE_SYNC_MASK = 0 := by
  intro b hb
  rw [clearSyncFlags] at hb
  rcases List.mem_map.mp hb with ⟨c, _, hc⟩
  rw [← hc]
  exact clearMask_and_mask c.flag BASE_SYNC_MASK

theorem recordOf_clearSyncFlags (l : List Base) (o : Nat) :
    recordOf (clearSyncFlags l) o =
      (recordOf l o).map (fun b => { b with flag := clearMask b.flag BASE_SYNC_MASK }) := by
  induction l with
  | nil => rfl
  | cons c rest ih =>
    simp only [clearSyncFlags] at ih ⊢
    rw [List.map_cons, recordOf_cons, recordOf_cons]
    by_cases hc : c.object = o
    · simp [hc]
    · simp [hc, ih]

theorem recordOf_remove_other (l : List Base) (o o' : Nat) (pre : List Base) (b : Base)
    (post : List Base) (h : splitBase l o = some (pre, b, post)) (hne : o' ≠ o) :
    recordOf (pre ++ post) o' = recordOf l o' := by
  obtain ⟨hl, hb, _⟩ := splitBase_some _ _ _ _ _ h
  rw [hl, recordOf_append, recordOf_append, recordOf_cons]
  have hfalse : (b.object = o') = False := by
    simp only [eq_iff_iff, iff_false]
    intro hx
    exact hne (by rw [← hx, hb])
  simp only [hfalse, if_false]

theorem recordOf_new_eq_lookup (s : BaseSt) (o : Nat) (h : o ∈ baseObjs s.newBases) :
    recordOf s.newBases o = lookupBase s o := by
  rcases hr : recordOf s.newBases o with _ | c
  · exfalso
    rcases List.mem_map.mp h with ⟨c, hcm, hco⟩
    exact ((recordOf_eq_none _ _).mp hr) c hcm hco
  · rw [lookupBase_eq, hr]
    rfl

theorem record_final (w : List (Nat × Nat)) (s : BaseSt) (o : Nat) (b : Base)
    (hD : distinctSt s) (h : recordOf s.newBases o = some b) :
    recordOf (visitFold w s).newBases o =
      some { b with flag := b.flag ||| grantsOr w o } := by
  have hlk := (visitFold_lookup w s o hD).1 b (lookupBase_of_record_new s o b h)
  have hmem : o ∈ baseObjs (visitFold w s).newBases := by
    rw [visitFold_new_mem]
    left
    obtain ⟨hbo, hbm⟩ := recordOf_eq_some_object _ _ _ h
    rw [← hbo]
    exact List.mem_map_of_mem Base.object hbm
  rw [recordOf_new_eq_lookup _ _ hmem]
  exact hlk

/-! ## Tree stability of a second run -/

theorem sceneHas_head (ci cf : Nat) (cch : List SCol) (cgo : List Nat) (ss : List SCol) :
    sceneHas (SCol.node ci cf cch cgo :: ss) ci = true := by
  simp [sceneHas, SCol.cid]

theorem sceneHas_cons (c0 : SCol) (ss : List SCol) (c : Nat) (h : sceneHas ss c = true) :
    sceneHas (c0 :: ss) c = true := by
  simp only [sceneHas, List.any_eq_true] at h ⊢
  rcases h with ⟨x, hx, he⟩
  exact ⟨x, List.mem_cons_of_mem c0 hx, he⟩

theorem mirrorsB_scene_mem :
    ∀ (s : List SCol) (l : List LC), mirrorsB s l = true →
      ∀ lc ∈ l, ∃ c, lc.collection = some c ∧ sceneHas s c = true := by
  intro s
  induction s with
  | nil =>
    intro l h lc hmem
    cases l with
    | nil => simp at hmem
    | cons a b => rw [mirrorsB_nil_cons] at h; exact absurd h (by simp)
  | cons c0 ss ih =>
    intro l h lc hmem
    cases c0 with
    | node ci cf cch cgo =>
      cases l with
      | nil => simp at hmem
      | cons lc0 ls =>
        obtain ⟨h1, _, h3⟩ := mirrorsB_cons_elim ci cf cch cgo ss lc0 ls h
        rcases List.mem_cons.mp hmem with he | hm
        · subst he
          exact ⟨ci, h1, sceneHas_head ci cf cch cgo ss⟩
        · obtain ⟨c, hc, hsc⟩ := ih ls h3 lc hm
          exact ⟨c, hc, sceneHas_cons _ ss c hsc⟩

theorem prune_keep_all (s : List SCol) (top : Bool) :
    ∀ (l : List LC) (fk : Option Nat) (st : SyncSt),
      (∀ lc ∈ l, ∃ c, lc.collection = some c ∧ sceneHas s c = true) →
      prune_pass s top l fk st = (l, st) := by
  intro l
  induction l with
  | nil =>
    intro fk st _
    rw [prune_pass]
  | cons lc rest ih =>
    intro fk st h
    rw [prune_pass]
    obtain ⟨c, hc, hsc⟩ := h lc (List.mem_cons_self lc rest)
    simp only [hc, hsc, if_true]
    rw [ih (fk <|> some lc.tag) st (fun x hx => h x (List.mem_cons_of_mem lc hx))]

theorem tree_stable (n : Nat) :
    (∀ s : List SCol, sizeOf s ≤ n → ∀ (l : List LC) (pe pr : Nat) (top : Bool) (st : SyncSt),
      mirrorsB s l = true → (reconcile_pass s l pe pr top st).1 = l) ∧
    (∀ s : List SCol, sizeOf s ≤ n → ∀ (l : List LC) (pe pr : Nat) (top : Bool) (st : SyncSt),
      mirrorsB s l = true → (layer_collection_sync s l pe pr top st).1 = l) := by
  induction n with
  | zero =>
    refine ⟨?_, ?_⟩ <;>
      (intro s hs
       exfalso
       cases s with
       | nil => simp at hs
       | cons a as =>
         simp only [List.cons.sizeOf_spec] at hs
         omega)
  | succ n ih =>
    have hA : ∀ s : List SCol, sizeOf s ≤ n + 1 →
        ∀ (l : List LC) (pe pr : Nat) (top : Bool) (st : SyncSt),
        mirrorsB s l = true → (reconcile_pass s l pe pr top st).1 = l := by
      intro s hs l pe pr top st hm
      cases s with
      | nil =>
        cases l with
        | nil => rw [reconcile_nil]
        | cons a b => rw [mirrorsB_nil_cons] at hm; exact absurd hm (by simp)
      | cons c ss =>
        cases c with
        | node ci cf cch cgo =>
          cases l with
          | nil => rw [mirrorsB_cons_nil] at hm; exact absurd hm (by simp)
          | cons lc ls =>
            obtain ⟨h1, h2, h3⟩ := mirrorsB_cons_elim ci cf cch cgo ss lc ls hm
            have hsize : sizeOf cch ≤ n := by
              simp only [List.cons.sizeOf_spec, SCol.node.sizeOf_spec] at hs
              omega
            have hrest : sizeOf ss ≤ n := by
              simp only [List.cons.sizeOf_spec, SCol.node.sizeOf_spec] at hs
              omega
            have hfind : lcFindRemove (lc :: ls) ci = some (lc, ls) := by
              rw [lcFindRemove, if_pos h1]
            rw [reconcile_cons_found ci cf cch cgo ss (lc :: ls) pe pr top st lc ls hfind]
            have e1 : ∀ stx : SyncSt,
                (layer_collection_sync cch lc.children lc.flag (childRestrictF pr cf)
                  false stx).1 = lc.children :=
              fun stx => ih.2 cch hsize lc.children lc.flag (childRestrictF pr cf) false stx h2
            have e2 : ∀ stx : SyncSt, (reconcile_pass ss ls pe pr top stx).1 = ls :=
              fun stx => ih.1 ss hrest ls pe pr top stx h3
            rw [e1, e2]
            cases lc with
            | node t c f ch => rfl
    have hB : ∀ s : List SCol, sizeOf s ≤ n + 1 →
        ∀ (l : List LC) (pe pr : Nat) (top : Bool) (st : SyncSt),
        mirrorsB s l = true → (layer_collection_sync s l pe pr top st).1 = l := by
      intro s hs l pe pr top st hm
      rw [layer_collection_sync]
      rw [prune_keep_all s top l none st (mirrorsB_scene_mem s l hm)]
      exact hA s hs l pe pr top st hm
    exact ⟨hA, hB⟩

/-- A successful top-level sync's layer tree is the worker's output tree. -/
theorem BKE_sync_some_tree (parentOf : Nat → Option Nat) (fuel : Nat) (m : SCol)
    (vl vl' : ViewLayer)
    (h : BKE_layer_collection_sync parentOf fuel (some m) vl = some vl') :
    vl'.layer_collections =
      (layer_collection_sync [m] vl.layer_collections 0 0 true
        { oldBases := clearSyncFlags vl.object_bases
          newBases := []
          baseTag := vl.baseTag
          lcTag := vl.lcTag
          active := vl.active_collection
          viewFirst := headTag vl.layer_collections }).1 := by
  rw [BKE_layer_collection_sync] at h
  simp only [] at h
  set res := layer_collection_sync [m] vl.layer_collections 0 0 true
    { oldBases := clearSyncFlags vl.object_bases
      newBases := []
      baseTag := vl.baseTag
      lcTag := vl.lcTag
      active := vl.active_collection
      viewFirst := headTag vl.layer_collections } with hres
  rcases hact : res.2.active with _ | t
  · simp only [hact] at h
    injection h with h2
    rw [← h2]
  · simp only [hact] at h
    rcases hf : findLcByTagList res.1 t with _ | lc
    · simp only [hf] at h
      injection h with h2
      rw [← h2]
    · simp only [hf] at h
      by_cases hex : lc.flag &&& LAYER_COLLECTION_EXCLUDE = 0
      · rw [if_pos hex] at h
        injection h with h2
        rw [← h2]
      · rw [if_neg hex] at h
        rcases hw : activate_parent_walk parentOf res.1 fuel lc with _ | na
        · simp only [hw] at h
          exact absurd h (by simp)
        · simp only [hw] at h
          injection h with h2
          rw [← h2]

/-- Parallel-run lemma: a fold that starts from the cleared final new list of
a first fold over the same visit sequence rebuilds exactly that new list. -/
theorem visitFold_self :
    ∀ (w : List (Nat × Nat)) (sA sB : BaseSt),
      distinctSt sA → distinctSt sB →
      sB.newBases = sA.newBases →
      (∀ b ∈ sA.oldBases, b.flag &&& BASE_SYNC_MASK = 0) →
      (∀ o, visitedObj w o → o ∉ baseObjs sA.newBases →
        ∃ rec, recordOf (visitFold w sA).newBases o = some rec ∧
          recordOf sB.oldBases o =
            some { rec with flag := clearMask rec.flag BASE_SYNC_MASK }) →
      (visitFold w sB).newBases = (visitFold w sA).newBases := by
  intro w
  induction w with
  | nil =>
    intro sA sB _ _ hnew _ _
    rw [visitFold_nil, visitFold_nil]
    exact hnew
  | cons p w2 ih =>
    rcases p with ⟨o, r⟩
    intro sA sB hDA hDB hnew hflags hrec
    rw [visitFold_cons, visitFold_cons]
    have hDA2 := step_distinct sA o r hDA
    have hDB2 := step_distinct sB o r hDB
    rcases hspN : splitBase sA.newBases o with _ | ⟨⟨pre, b, post⟩⟩
    · -- object not in the rebuilt list yet
      have hnotinA : o ∉ baseObjs sA.newBases := by
        intro hmem
        rcases List.mem_map.mp hmem with ⟨c, hcmem, hco⟩
        exact ((splitBase_none _ _).mp hspN) c hcmem hco
      have hvo : visitedObj ((o, r) :: w2) o := ⟨r, List.mem_cons_self _ _⟩
      obtain ⟨rec, hrecfin, hrecB⟩ := hrec o hvo hnotinA
      rw [visitFold_cons] at hrecfin
      have hsplBnew : splitBase sB.newBases o = none := by rw [hnew]; exact hspN
      have hsplBold : ∃ preB postB, splitBase sB.oldBases o =
          some (preB, { rec with flag := clearMask rec.flag BASE_SYNC_MASK }, postB) := by
        rw [recordOf] at hrecB
        rcases hq : splitBase sB.oldBases o with _ | ⟨⟨p1, c, p2⟩⟩
        · rw [hq] at hrecB
          exact absurd hrecB (by simp)
        · rw [hq] at hrecB
          simp only [Option.map_some', Option.some.injEq] at hrecB
          exact ⟨p1, p2, by rw [hrecB]⟩
      obtain ⟨preB, postB, hsplBold⟩ := hsplBold
      rcases hspO : splitBase sA.oldBases o with _ | ⟨⟨preA, a, postA⟩⟩
      · -- first run created a fresh base here
        have hstepA : base_sync_step sA o r =
            { sA with
              newBases := sA.newBases ++ [⟨sA.baseTag, o, base_grant r 0⟩]
              baseTag := sA.baseTag + 1 } := by
          simp only [base_sync_step, hspN, hspO]
        have hrecA2 : recordOf (base_sync_step sA o r).newBases o =
            some ⟨sA.baseTag, o, base_grant r 0⟩ := by
          rw [hstepA]
          show recordOf (sA.newBases ++ [⟨sA.baseTag, o, base_grant r 0⟩]) o = _
          rw [recordOf_append]
          have hni : recordOf sA.newBases o = none := by rw [recordOf, hspN]; rfl
          rw [hni]
          simp [recordOf_cons]
        have hfin := record_final w2 (base_sync_step sA o r) o _ hDA2 hrecA2
        have hrec_eq : rec = ⟨sA.baseTag, o, base_grant r 0 ||| grantsOr w2 o⟩ := by
          have hcomb := hfin.symm.trans hrecfin
          injection hcomb with he
          exact he.symm
        subst hrec_eq
        have hclr : clearMask (base_grant r 0 ||| grantsOr w2 o) BASE_SYNC_MASK = 0 := by
          apply clearMask_eq_zero
          rw [land_lor_distrib, base_grant_mask, grantsOr_mask]
        have hBval : ({ (⟨sA.baseTag, o, base_grant r 0 ||| grantsOr w2 o⟩ : Base) with
            flag := clearMask (⟨sA.baseTag, o, base_grant r 0 ||| grantsOr w2 o⟩ : Base).flag
              BASE_SYNC_MASK } : Base) = ⟨sA.baseTag, o, 0⟩ := by
          simp [hclr]
        rw [hBval] at hsplBold
        have hstepB : base_sync_step sB o r =
            { sB with
              oldBases := preB ++ postB
              newBases := sB.newBases ++
                [{ (⟨sA.baseTag, o, (0 : Nat)⟩ : Base) with
                    flag := base_grant r (⟨sA.baseTag, o, (0 : Nat)⟩ : Base).flag }] } := by
          simp only [base_sync_step, hsplBnew, hsplBold]
        refine ih (base_sync_step sA o r) (base_sync_step sB o r) hDA2 hDB2 ?_ ?_ ?_
        · rw [hstepA, hstepB]
          show sB.newBases ++ _ = sA.newBases ++ _
          rw [hnew]
        · intro x hx
          rw [hstepA] at hx
          exact hflags x hx
        · intro o2 hv2 hnot2
          have hne : o2 ≠ o := by
            intro he
            subst he
            apply hnot2
            rw [step_new_mem]
            exact Or.inr rfl
          have hnot2A : o2 ∉ baseObjs sA.newBases := by
            intro hm
            apply hnot2
            rw [step_new_mem]
            exact Or.inl hm
          obtain ⟨rec2, hr1, hr2⟩ := hrec o2 ⟨hv2.choose, List.mem_cons_of_mem _ hv2.choose_spec⟩ hnot2A
          rw [visitFold_cons] at hr1
          refine ⟨rec2, hr1, ?_⟩
          rw [hstepB]
          show recordOf (preB ++ postB) o2 = _
          rw [recordOf_remove_other sB.oldBases o o2 preB _ postB hsplBold hne]
          exact hr2
      · -- first run moved a base from the old list
        obtain ⟨hlO, haO, _⟩ := splitBase_some _ _ _ _ _ hspO
        have hstepA : base_sync_step sA o r =
            { sA with
              oldBases := preA ++ postA
              newBases := sA.newBases ++ [{ a with flag := base_grant r a.flag }] } := by
          simp only [base_sync_step, hspN, hspO]
        have hrecA2 : recordOf (base_sync_step sA o r).newBases o =
            some { a with flag := base_grant r a.flag } := by
          rw [hstepA]
          show recordOf (sA.newBases ++ [{ a with flag := base_grant r a.flag }]) o = _
          rw [recordOf_append]
          have hni : recordOf sA.newBases o = none := by rw [recordOf, hspN]; rfl
          rw [hni]
          simp [recordOf_cons, haO]
        have hfin := record_final w2 (base_sync_step sA o r) o _ hDA2 hrecA2
        have hrec_eq : rec = { a with flag := base_grant r a.flag ||| grantsOr w2 o } := by
          have hcomb := hfin.symm.trans hrecfin
          injection hcomb with he
          exact he.symm
        subst hrec_eq
        have haflag : a.flag &&& BASE_SYNC_MASK = 0 := by
          refine hflags a ?_
          rw [hlO]
          exact List.mem_append.mpr (Or.inr (List.mem_cons_self a postA))
        have hclr : clearMask (base_grant r a.flag ||| grantsOr w2 o) BASE_SYNC_MASK = a.flag := by
          rw [clearMask_lor_right (grantsOr_mask w2 o), base_grant_or,
            clearMask_lor_right (base_grant_mask r)]
          exact clearMask_of_and_zero haflag
        have hBval : ({ ({ a with flag := base_grant r a.flag ||| grantsOr w2 o } : Base) with
            flag := clearMask ({ a with
              flag := base_grant r a.flag ||| grantsOr w2 o } : Base).flag
              BASE_SYNC_MASK } : Base) = a := by
          cases a with
          | mk t ob f => simp_all
        rw [hBval] at hsplBold
        have hstepB : base_sync_step sB o r =
            { sB with
              oldBases := preB ++ postB
              newBases := sB.newBases ++ [{ a with flag := base_grant r a.flag }] } := by
          simp only [base_sync_step, hsplBnew, hsplBold]
        refine ih (base_sync_step sA o r) (base_sync_step sB o r) hDA2 hDB2 ?_ ?_ ?_
        · rw [hstepA, hstepB]
          show sB.newBases ++ _ = sA.newBases ++ _
          rw [hnew]
        · intro x hx
          rw [hstepA] at hx
          refine hflags x ?_
          rw [hlO]
          rcases List.mem_append.mp hx with h1 | h1
          · exact List.mem_append.mpr (Or.inl h1)
          · exact List.mem_append.mpr (Or.inr (List.mem_cons_of_mem a h1))
        · intro o2 hv2 hnot2
          have hne : o2 ≠ o := by
            intro he
            subst he
            apply hnot2
            rw [step_new_mem]
            exact Or.inr rfl
          have hnot2A : o2 ∉ baseObjs sA.newBases := by
            intro hm
            apply hnot2
            rw [step_new_mem]
            exact Or.inl hm
          obtain ⟨rec2, hr1, hr2⟩ := hrec o2 ⟨hv2.choose, List.mem_cons_of_mem _ hv2.choose_spec⟩ hnot2A
          rw [visitFold_cons] at hr1
          refine ⟨rec2, hr1, ?_⟩
          rw [hstepB]
          show recordOf (preB ++ postB) o2 = _
          rw [recordOf_remove_other sB.oldBases o o2 preB _ postB hsplBold hne]
          exact hr2
    · -- object already in the rebuilt list: identical in-place or relocating update
      have hsplB : splitBase sB.newBases o = some (pre, b, post) := by
        rw [hnew]
        exact hspN
      have hstepA : base_sync_step sA o r =
          { sA with newBases :=
              if pre = [] ∨ post = [] then
                pre ++ { b with flag := base_grant r b.flag } :: post
              else pre ++ post ++ [{ b with flag := base_grant r b.flag }] } := by
        simp only [base_sync_step, hspN]
        split <;> rfl
      have hstepB : base_sync_step sB o r =
          { sB with newBases :=
              if pre = [] ∨ post = [] then
                pre ++ { b with flag := base_grant r b.flag } :: post
              else pre ++ post ++ [{ b with flag := base_grant r b.flag }] } := by
        simp only [base_sync_step, hsplB]
        split <;> rfl
      refine ih (base_sync_step sA o r) (base_sync_step sB o r) hDA2 hDB2 ?_ ?_ ?_
      · rw [hstepA, hstepB]
      · intro x hx
        rw [hstepA] at hx
        exact hflags x hx
      · intro o2 hv2 hnot2
        have hnot2A : o2 ∉ baseObjs sA.newBases := by
          intro hm
          apply hnot2
          rw [step_new_mem]
          exact Or.inl hm
        obtain ⟨rec2, hr1, hr2⟩ := hrec o2 ⟨hv2.choose, List.mem_cons_of_mem _ hv2.choose_spec⟩ hnot2A
        rw [visitFold_cons] at hr1
        refine ⟨rec2, hr1, ?_⟩
        rw [hstepB]
        exact hr2

/-- C2: sync is idempotent.  A second run of `BKE_layer_collection_sync` with
the same source tree returns the layer tree unchanged (same nodes, same
order, same tags and flags) and rebuilds the very same base list (same
records, same order, same tags, objects and flag words). -/
theorem C2_sync_idempotent (parentOf : Nat → Option Nat) (fuel : Nat) (m : SCol)
    (vl vl' vl'' : ViewLayer)
    (hnd : (baseObjs vl.object_bases).Nodup)
    (h1 : BKE_layer_collection_sync parentOf fuel (some m) vl = some vl')
    (h2 : BKE_layer_collection_sync parentOf fuel (some m) vl' = some vl'') :
    vl''.layer_collections = vl'.layer_collections ∧
    vl''.object_bases = vl'.object_bases := by
  obtain ⟨hm1, hb1⟩ := BKE_sync_some_char parentOf fuel m vl vl' h1
  have ht2 := BKE_sync_some_tree parentOf fuel m vl' vl'' h2
  have hstable := (tree_stable (sizeOf [m])).2 [m] le_rfl vl'.layer_collections 0 0 true
    { oldBases := clearSyncFlags vl'.object_bases
      newBases := []
      baseTag := vl'.baseTag
      lcTag := vl'.lcTag
      active := vl'.active_collection
      viewFirst := headTag vl'.layer_collections } hm1
  have htree : vl''.layer_collections = vl'.layer_collections := ht2.trans hstable
  refine ⟨htree, ?_⟩
  have hb2 := (BKE_sync_some_char parentOf fuel m vl' vl'' h2).2
  rw [htree] at hb2
  set V := visitsOf [m] vl'.layer_collections 0 with hV
  set sA : BaseSt := ⟨clearSyncFlags vl.object_bases, [], vl.baseTag⟩ with hsA
  have hDA : distinctSt sA := by
    unfold distinctSt
    show (baseObjs (clearSyncFlags vl.object_bases) ++ baseObjs []).Nodup
    rw [baseObjs_clearSyncFlags]
    simp only [baseObjs, List.map_nil, List.append_nil]
    exact hnd
  have hndF : (baseObjs (visitFold V sA).newBases).Nodup := by
    have hD := visitFold_distinct V sA hDA
    unfold distinctSt at hD
    exact hD.of_append_right
  set sB : BaseSt := ⟨clearSyncFlags vl'.object_bases, [], vl'.baseTag⟩ with hsB
  have hDB : distinctSt sB := by
    unfold distinctSt
    show (baseObjs (clearSyncFlags vl'.object_bases) ++ baseObjs []).Nodup
    rw [baseObjs_clearSyncFlags]
    simp only [baseObjs, List.map_nil, List.append_nil]
    rw [hb1]
    exact hndF
  have hself : (visitFold V sB).newBases = (visitFold V sA).newBases := by
    refine visitFold_self V sA sB hDA hDB rfl (clearSyncFlags_flag_zero _) ?_
    intro o hvo hno
    have hmem : o ∈ baseObjs (visitFold V sA).newBases := by
      rw [visitFold_new_mem]
      exact Or.inr hvo
    rcases List.mem_map.mp hmem with ⟨rec, hrecm, hreco⟩
    refine ⟨rec, recordOf_unique _ o rec hndF hrecm hreco, ?_⟩
    show recordOf (clearSyncFlags vl'.object_bases) o = _
    rw [hb1, recordOf_clearSyncFlags, recordOf_unique _ o rec hndF hrecm hreco]
    rfl
  rw [hb2, hb1, hself]

theorem C2_sync_idempotent_witness :
    (baseObjs vlW.object_bases).Nodup ∧
    BKE_layer_collection_sync (fun _ => none) 1 (some mW) vlW = some vl1W ∧
    BKE_layer_collection_sync (fun _ => none) 1 (some mW) vl1W = some vl1W ∧
    (vl1W.layer_collections = vl1W.layer_collections ∧
      vl1W.object_bases = vl1W.object_bases) := by
  have h0 : (baseObjs vlW.object_bases).Nodup := by decide
  have h1 : BKE_layer_collection_sync (fun _ => none) 1 (some mW) vlW = some vl1W := by
    simp [BKE_layer_collection_sync, layer_collection_sync, reconcile_pass, prune_pass,
      lcFindRemove, object_base_sync, splitBase, base_grant, childRestrictF, clearSyncFlags,
      headTag, mW, vlW, vl1W, COLLECTION_IS_MASTER, COLLECTION_RESTRICT_VIEW,
      COLLECTION_RESTRICT_SELECT, COLLECTION_RESTRICT_RENDER, BASE_SELECTED, BASE_VISIBLED,
      BASE_SELECTABLED, BASE_VISIBLE_VIEWPORT, BASE_VISIBLE_RENDER, LAYER_COLLECTION_EXCLUDE,
      SCol.cid, SCol.flag, SCol.children, SCol.gobject, LC.tag, LC.collection, LC.flag,
      LC.children, sceneHas, findLcByTagList, findLcByTag, BASE_SYNC_MASK, base_sync_step,
      baseStOf, layer_collection_free, layer_collection_free_list, activate_parent_walk,
      clearMask]
    decide
  have h2 : BKE_layer_collection_sync (fun _ => none) 1 (some mW) vl1W = some vl1W := by
    simp [BKE_layer_collection_sync, layer_collection_sync, reconcile_pass, prune_pass,
      lcFindRemove, object_base_sync, splitBase, base_grant, childRestrictF, clearSyncFlags,
      headTag, mW, vlW, vl1W, COLLECTION_IS_MASTER, COLLECTION_RESTRICT_VIEW,
      COLLECTION_RESTRICT_SELECT, COLLECTION_RESTRICT_RENDER, BASE_SELECTED, BASE_VISIBLED,
      BASE_SELECTABLED, BASE_VISIBLE_VIEWPORT, BASE_VISIBLE_RENDER, LAYER_COLLECTION_EXCLUDE,
      SCol.cid, SCol.flag, SCol.children, SCol.gobject, LC.tag, LC.collection, LC.flag,
      LC.children, sceneHas, findLcByTagList, findLcByTag, BASE_SYNC_MASK, base_sync_step,
      baseStOf, layer_collection_free, layer_collection_free_list, activate_parent_walk,
      clearMask]
    decide
  exact ⟨h0, h1, h2,
    C2_sync_idempotent (fun _ => none) 1 mW vlW vl1W vl1W h0 h1 h2⟩

/-- C6 counterexample: when the pruned active node is the view's first root
at the instant it is freed, `layer_collection_free` re-points the active
reference at the very node being freed, and the end-of-sync fix-up finds no
node with that tag, so the active reference neither becomes the first root
nor designates any node of the non-empty tree. -/
theorem C6_active_pruned_dangling :
    BKE_layer_collection_sync (fun _ => none) 1 (some mC) vlC = some vlC' ∧
    vlC'.layer_collections ≠ [] ∧
    vlC'.active_collection = some 1 ∧
    findLcByTagList vlC'.layer_collections 1 = none := by
  refine ⟨?_, by simp [vlC'], rfl, ?_⟩
  · simp [BKE_layer_collection_sync, layer_collection_sync, reconcile_pass, prune_pass,
      lcFindRemove, object_base_sync, splitBase, base_grant, childRestrictF, clearSyncFlags,
      headTag, mC, vlC, vlC', COLLECTION_IS_MASTER, LAYER_COLLECTION_EXCLUDE,
      SCol.cid, SCol.flag, SCol.children, SCol.gobject, LC.tag, LC.collection, LC.flag,
      LC.children, sceneHas, findLcByTagList, findLcByTag, BASE_SYNC_MASK, base_sync_step,
      baseStOf, layer_collection_free, layer_collection_free_list, activate_parent_walk,
      clearMask]
  · simp [vlC', findLcByTagList, findLcByTag, LC.tag, LC.children]

/-- C6 (amended): the fix-up guarantees only this much.  A cleared active
reference becomes the first root (non-null whenever the tree is non-empty); a
surviving non-excluded active node stays active; a surviving excluded node's
replacement is whatever the parent walk returns; but an active tag absent
from the rebuilt tree is left in place (stale), with no fallback to the first
root. -/
theorem C6_active_collection_amended (parentOf : Nat → Option Nat) (fuel : Nat)
    (m : SCol) (vl vl' : ViewLayer) (res : List LC × SyncSt)
    (hres : layer_collection_sync [m] vl.layer_collections 0 0 true
      { oldBases := clearSyncFlags vl.object_bases
        newBases := []
        baseTag := vl.baseTag
        lcTag := vl.lcTag
        active := vl.active_collection
        viewFirst := headTag vl.layer_collections } = res)
    (h : BKE_layer_collection_sync parentOf fuel (some m) vl = some vl') :
    vl'.layer_collections = res.1 ∧
    (res.2.active = none →
      vl'.active_collection = headTag res.1 ∧
      (res.1 ≠ [] → vl'.active_collection ≠ none)) ∧
    (∀ t lc, res.2.active = some t → findLcByTagList res.1 t = some lc →
      (lc.flag &&& LAYER_COLLECTION_EXCLUDE = 0 → vl'.active_collection = some t) ∧
      (lc.flag &&& LAYER_COLLECTION_EXCLUDE ≠ 0 →
        ∃ na, activate_parent_walk parentOf res.1 fuel lc = some na ∧
          vl'.active_collection = na)) ∧
    (∀ t, res.2.active = some t → findLcByTagList res.1 t = none →
      vl'.active_collection = some t) := by
  rw [BKE_layer_collection_sync] at h
  simp only [] at h
  rw [hres] at h
  rcases hact : res.2.active with _ | t0
  · simp only [hact] at h
    injection h with h2
    refine ⟨by rw [← h2], ?_, ?_, ?_⟩
    · intro _
      constructor
      · rw [← h2]
      · intro hne
        rw [← h2]
        show headTag res.1 ≠ none
        cases hr : res.1 with
        | nil => exact absurd hr hne
        | cons a l => simp [headTag]
    · intro t lc hsome _
      exact absurd hsome (by simp)
    · intro t hsome _
      exact absurd hsome (by simp)
  · simp only [hact] at h
    rcases hf : findLcByTagList res.1 t0 with _ | lc0
    · simp only [hf] at h
      injection h with h2
      refine ⟨by rw [← h2], ?_, ?_, ?_⟩
      · intro hnone
        exact absurd hnone (by simp)
      · intro t lc hsome hfind
        injection hsome with ht
        subst ht
        rw [hf] at hfind
        exact absurd hfind (by simp)
      · intro t hsome _
        injection hsome with ht
        rw [← h2]
        exact congrArg some ht
    · simp only [hf] at h
      by_cases hex : lc0.flag &&& LAYER_COLLECTION_EXCLUDE = 0
      · rw [if_pos hex] at h
        injection h with h2
        refine ⟨by rw [← h2], ?_, ?_, ?_⟩
        · intro hnone
          exact absurd hnone (by simp)
        · intro t lc hsome hfind
          injection hsome with ht
          subst ht
          rw [hf] at hfind
          injection hfind with hlc
          constructor
          · intro _
            rw [← h2]
          · intro hne
            rw [← hlc] at hne
            exact absurd hex hne
        · intro t hsome hfindnone
          injection hsome with ht
          subst ht
          rw [hf] at hfindnone
          exact absurd hfindnone (by simp)
      · rw [if_neg hex] at h
        rcases hw : activate_parent_walk parentOf res.1 fuel lc0 with _ | na
        · simp only [hw] at h
          exact absurd h (by simp)
        · simp only [hw] at h
          injection h with h2
          refine ⟨by rw [← h2], ?_, ?_, ?_⟩
          · intro hnone
            exact absurd hnone (by simp)
          · intro t lc hsome hfind
            injection hsome with ht
            subst ht
            rw [hf] at hfind
            injection hfind with hlc
            constructor
            · intro hz
              rw [← hlc] at hz
              exact absurd hz hex
            · intro _
              refine ⟨na, ?_, ?_⟩
              · rw [← hlc]
                exact hw
              · rw [← h2]
          · intro t hsome hfindnone
            injection hsome with ht
            subst ht
            rw [hf] at hfindnone
            exact absurd hfindnone (by simp)

theorem C6_active_collection_amended_witness :
    layer_collection_sync [mC] vlC.layer_collections 0 0 true
      { oldBases := clearSyncFlags vlC.object_bases
        newBases := []
        baseTag := vlC.baseTag
        lcTag := vlC.lcTag
        active := vlC.active_collection
        viewFirst := headTag vlC.layer_collections } = (rootsC, stC) ∧
    BKE_layer_collection_sync (fun _ => none) 1 (some mC) vlC = some vlC' ∧
    (vlC'.layer_collections = (rootsC, stC).1 ∧
      ((rootsC, stC).2.active = none →
        vlC'.active_collection = headTag (rootsC, stC).1 ∧
        ((rootsC, stC).1 ≠ [] → vlC'.active_collection ≠ none)) ∧
      (∀ t lc, (rootsC, stC).2.active = some t →
        findLcByTagList (rootsC, stC).1 t = some lc →
        (lc.flag &&& LAYER_COLLECTION_EXCLUDE = 0 → vlC'.active_collection = some t) ∧
        (lc.flag &&& LAYER_COLLECTION_EXCLUDE ≠ 0 →
          ∃ na, activate_parent_walk (fun _ => none) (rootsC, stC).1 1 lc = some na ∧
            vlC'.active_collection = na)) ∧
      (∀ t, (rootsC, stC).2.active = some t →
        findLcByTagList (rootsC, stC).1 t = none →
        vlC'.active_collection = some t)) := by
  have h1 : layer_collection_sync [mC] vlC.layer_collections 0 0 true
      { oldBases := clearSyncFlags vlC.object_bases
        newBases := []
        baseTag := vlC.baseTag
        lcTag := vlC.lcTag
        active := vlC.active_collection
        viewFirst := headTag vlC.layer_collections } = (rootsC, stC) := by
    simp [layer_collection_sync, reconcile_pass, prune_pass,
      lcFindRemove, object_base_sync, splitBase, base_grant, childRestrictF, clearSyncFlags,
      headTag, mC, vlC, rootsC, stC, COLLECTION_IS_MASTER, LAYER_COLLECTION_EXCLUDE,
      SCol.cid, SCol.flag, SCol.children, SCol.gobject, LC.tag, LC.collection, LC.flag,
      LC.children, sceneHas, BASE_SYNC_MASK, base_sync_step,
      baseStOf, layer_collection_free, layer_collection_free_list, clearMask]
  have h2 : BKE_layer_collection_sync (fun _ => none) 1 (some mC) vlC = some vlC' := by
    simp [BKE_layer_collection_sync, layer_collection_sync, reconcile_pass, prune_pass,
      lcFindRemove, object_base_sync, splitBase, base_grant, childRestrictF, clearSyncFlags,
      headTag, mC, vlC, vlC', COLLECTION_IS_MASTER, LAYER_COLLECTION_EXCLUDE,
      SCol.cid, SCol.flag, SCol.children, SCol.gobject, LC.tag, LC.collection, LC.flag,
      LC.children, sceneHas, findLcByTagList, findLcByTag, BASE_SYNC_MASK, base_sync_step,
      baseStOf, layer_collection_free, layer_collection_free_list, activate_parent_walk,
      clearMask]
  exact ⟨h1, h2,
    C6_active_collection_amended (fun _ => none) 1 mC vlC vlC' (rootsC, stC) h1 h2⟩

end LayerSync
